import Mathlib

/-! Verification of the minecraft-bootstrap repository.

A shallow embedding, in Lean 4, of the pure computational content of the
`minecraft-bootstrap` Python repository, together with proofs and refutations
of the testable properties stated in its specification.

Text is modelled as `List Char`, byte strings as `List Nat`, JSON payloads by
an inductive `Json` type, and the ambient HTTP network / environment-variable
table as explicit function parameters.  Filesystem side effects are modelled
by explicit write traces or are elided where no claim depends on them (each
definition documents its elisions).
-/

namespace MinecraftBootstrap

/-! ## Python string primitives

Models of the CPython `str` operations the repository uses:
`str.strip` (with the ASCII whitespace subset, which covers every string the
repository manipulates), `str.splitlines` (with the full set of line-boundary
code points recognised by CPython), `"\n".join`, `str.startswith`,
membership (`in`) and `str.split("=", 1)`.
-/

/-- A single line of text, as a list of characters. -/
abbrev Line := List Char

/-- ASCII whitespace as recognised by `str.strip()`:
space, tab, newline, carriage return, vertical tab, form feed. -/
def isPySpace (c : Char) : Bool :=
  c = ' ' || c = '\t' || c = '\n' || c = '\x0d' ||
  c = Char.ofNat 0x0b || c = Char.ofNat 0x0c

/-- Model of `str.lstrip()`: drop leading whitespace. -/
def pyLStrip (l : Line) : Line := l.dropWhile isPySpace

/-- Model of `str.rstrip()`: drop trailing whitespace. -/
def pyRStrip (l : Line) : Line := (l.reverse.dropWhile isPySpace).reverse

/-- Model of `str.strip()`: drop leading and trailing whitespace. -/
def pyStrip (l : Line) : Line := pyRStrip (pyLStrip l)

/-- The line-boundary code points recognised by `str.splitlines()`:
LF, CR, VT, FF, FS, GS, RS, NEL, LINE SEPARATOR, PARAGRAPH SEPARATOR
(CRLF is additionally treated as a single boundary by `pySplitlines`). -/
def isLineBoundary (c : Char) : Bool :=
  c = '\n' || c = '\x0d' || c = Char.ofNat 0x0b || c = Char.ofNat 0x0c ||
  c = Char.ofNat 0x1c || c = Char.ofNat 0x1d || c = Char.ofNat 0x1e ||
  c = Char.ofNat 0x85 || c = Char.ofNat 0x2028 || c = Char.ofNat 0x2029

/-- Model of `str.splitlines()`: split at every line boundary, treating CRLF as a
single boundary; a final segment without a terminator forms a last line
only when it is nonempty. -/
def pySplitlines : Line → List Line
  | [] => []
  | [c] => if isLineBoundary c then [[]] else [[c]]
  | c :: d :: rest =>
    if c = '\x0d' && d = '\n' then [] :: pySplitlines rest
    else if isLineBoundary c then [] :: pySplitlines (d :: rest)
    else
      match pySplitlines (d :: rest) with
      | [] => [[c]]
      | l :: ls => (c :: l) :: ls

/-- Model of `"\n".join(lines)`. -/
def joinLines : List Line → Line
  | [] => []
  | [l] => l
  | l :: ls => l ++ '\n' :: joinLines ls

/-! ## `utils/server_customization.py`: the server.properties merge

`customizeServerProperties(destination, config)` reads an existing
`server.properties` file, merges the override mapping `config` into it line
by line, and writes the result back (with `"\n".join(updatedLines) + "\n"`).
The functions below embed that text transformation; the filesystem read and
write, and the default-file seeding for a missing file (which only produces
the "existing text" consumed here), are elided.

The override `Dict[str, str]` is modelled as an association list whose
lookup takes the first matching key; a Python dict never holds a duplicate
key, so on dict-images the two agree.
-/

/-- Dictionary lookup `config[key]` / the `key in config` test. -/
def lookupKey (config : List (Line × Line)) (k : Line) : Option Line :=
  match config with
  | [] => none
  | (k', v) :: rest => if k' = k then some v else lookupKey rest k

/-- The test on line 54 of `server_customization.py`: a line is passed
through unchanged when its stripped form is empty or starts with `#`,
or when the raw line contains no `=`. -/
def isPassthrough (line : Line) : Bool :=
  decide (pyStrip line = []) || decide ((pyStrip line).head? = some '#') ||
  !decide ('=' ∈ line)

/-- Model of `line.split("=", 1)[0].strip()`: the normalized key of a `key=value`
line (the stripped text before the first `=`). -/
def keyOf (line : Line) : Line :=
  pyStrip (line.takeWhile (fun c => c ≠ '='))

/-- One iteration of the merge loop (lines 53-66): returns the emitted line
and, when an override was applied, the key added to `appliedKeys`. -/
def mergeStep (config : List (Line × Line)) (line : Line) : Line × Option Line :=
  if isPassthrough line then (line, none)
  else
    match lookupKey config (keyOf line) with
    | some v => (keyOf line ++ '=' :: v, some (keyOf line))
    | none => (line, none)

/-- The first loop of the merge (lines 53-66): maps `mergeStep` over the
existing lines, collecting the emitted lines and the applied keys. -/
def mergeExisting (config : List (Line × Line)) : List Line → List Line × List Line
  | [] => ([], [])
  | line :: rest =>
    let r := mergeStep config line
    let s := mergeExisting config rest
    (r.1 :: s.1, match r.2 with | some k => k :: s.2 | none => s.2)

/-- The second loop of the merge (lines 68-72): append `key=value` for every
override key not yet applied, threading the growing `appliedKeys` set. -/
def appendMissing (applied : List Line) : List (Line × Line) → List Line
  | [] => []
  | (k, v) :: rest =>
    if k ∈ applied then appendMissing applied rest
    else (k ++ '=' :: v) :: appendMissing (k :: applied) rest

/-- The merged line list produced by `customizeServerProperties` for a given
list of existing lines. -/
def mergeLines (existing : List Line) (config : List (Line × Line)) : List Line :=
  (mergeExisting config existing).1 ++
    appendMissing (mergeExisting config existing).2 config

/-- The full text transformation of `customizeServerProperties` on an
existing `server.properties` text: split into lines, merge, join with `\n`
and a trailing newline (lines 49-74). -/
def customizeServerProperties (text : Line) (config : List (Line × Line)) : Line :=
  joinLines (mergeLines (pySplitlines text) config) ++ ['\n']

/-- The key under which the merge classifies a line: `none` for a
passed-through line, otherwise the normalized key. -/
def parsedKey (line : Line) : Option Line :=
  if isPassthrough line then none else some (keyOf line)

/-- Whether a line is a key-value line for the key `k`. -/
def keyMatches (k : Line) (line : Line) : Bool :=
  parsedKey line = some k

/-- How many key-value lines for the key `k` a line list contains. -/
def countKey (lines : List Line) (k : Line) : Nat :=
  (lines.filter (keyMatches k)).length

/-- An override mapping is clean when each key is its own strip, contains
no `=`, does not start with `#`, and neither key nor value contains a
line-boundary character.  Keys produced by `main.buildServerProperties`
(which strips each key) satisfy the first condition by construction. -/
def cleanConfig (config : List (Line × Line)) : Bool :=
  config.all fun p =>
    decide (pyStrip p.1 = p.1) && !decide ('=' ∈ p.1) &&
    decide (p.1.head? ≠ some '#') &&
    p.1.all (fun c => !isLineBoundary c) && p.2.all (fun c => !isLineBoundary c)

/-! ## `utils/parsing.py` / `utils/vanilla_module.py`: the server.jar scraper

Both files define the same `extractServerJarUrl(content)`, which runs
`re.search` with the fixed pattern
`https://piston-data\.mojang\.com/v1/objects/[0-9a-f]+/server\.jar` and
returns the matched substring, or `None` when there is no match.  The
embedding below specialises the regex engine to this pattern: `re.search`
returns the match at the leftmost possible start position, and at a fixed
position the pattern matches deterministically, because the greedy `[0-9a-f]+`
run can only be followed by `/` (not a hex digit), so no backtracking into a
shorter run can ever succeed. -/

def urlPrefix : Line := "https://piston-data.mojang.com/v1/objects/".data

def urlSuffix : Line := "/server.jar".data

/-- The character class `[0-9a-f]`. -/
def isHexDigit (c : Char) : Bool :=
  ('0' ≤ c && c ≤ '9') || ('a' ≤ c && c ≤ 'f')

/-- Attempt to match the fixed pattern at the start of `cs`: the literal
prefix, then the maximal run of hex digits (maximality is forced, because a
shorter run would have to be followed by the suffix's `/`, which is itself a
non-hex character ending the run), then the literal suffix. -/
def matchAt (cs : Line) : Option Line :=
  if urlPrefix.isPrefixOf cs then
    if ((cs.drop urlPrefix.length).takeWhile isHexDigit).isEmpty then none
    else if urlSuffix.isPrefixOf ((cs.drop urlPrefix.length).drop
        ((cs.drop urlPrefix.length).takeWhile isHexDigit).length) then
      some (urlPrefix ++ (cs.drop urlPrefix.length).takeWhile isHexDigit ++
        urlSuffix)
    else none
  else none

/-- Model of `extractServerJarUrl`: scan for the leftmost match of the fixed
pattern, returning it, or `none` when no position matches. -/
def extractServerJarUrl : Line → Option Line
  | [] => none
  | c :: rest =>
    match matchAt (c :: rest) with
    | some u => some u
    | none => extractServerJarUrl rest

/-- What it means for a string to match the fixed pattern (the specification
side of the scraper): the prefix, a nonempty run of hex digits, and the
suffix. -/
def isUrlMatch (u : Line) : Prop :=
  ∃ h, h ≠ [] ∧ (∀ c ∈ h, isHexDigit c = true) ∧ u = urlPrefix ++ h ++ urlSuffix

/-! ## `utils/files.py`: `extractZipArchive` (claim C4)

`extractZipArchive(data, destination)` rejects the bytes before any
filesystem access when they are shorter than 4 bytes or do not start with
the ZIP local-file-header signature `PK`; otherwise it opens the archive
with `zipfile.ZipFile` and extracts it, mapping `zipfile.BadZipFile` to
`InvalidModpackFormatError` and `OSError` to `ModpackExtractionError`.

The `zipfile` library call is modelled by an oracle `zipSem` describing, for
the given bytes, whether parsing fails (`badZip`, raised by the `ZipFile`
constructor before any write), extraction succeeds with a list of filesystem
writes, or an `OSError` interrupts extraction after some partial writes.
The model returns the raised error kind together with the write trace. -/

/-- Outcome of `zipfile.ZipFile(...)` followed by `extractall`. -/
inductive ZipOutcome where
  | parsed (writes : List String)
  | badZip
  | osError (partialWrites : List String)

/-- The two error classes raised by `extractZipArchive`. -/
inductive ArchiveError where
  | invalidModpackFormat
  | modpackExtraction
deriving DecidableEq

/-- Model of `files.extractZipArchive`: the PK pre-check, then the oracle. -/
def extractZipArchive (zipSem : List Nat → ZipOutcome) (data : List Nat) :
    Except ArchiveError Unit × List String :=
  if data.length < 4 ∨ data.take 2 ≠ [0x50, 0x4b] then
    (Except.error ArchiveError.invalidModpackFormat, [])
  else
    match zipSem data with
    | .parsed ws => (Except.ok (), ws)
    | .badZip => (Except.error ArchiveError.invalidModpackFormat, [])
    | .osError ws => (Except.error ArchiveError.modpackExtraction, ws)

/-! ## HTTP fetch operations (claim C8)

The ambient network is modelled by a function from URL to outcome: either a
response (status code and body) or a transport-level failure
(`requests.RequestException`: DNS, TLS, connection reset, timeout), carrying
its textual cause.  Each fetch operation of the repository is embedded as a
function of this network.  An uncaught `requests` exception propagating out
of a fetch function is represented by the error value
`rawRequestException`: the Python callers have no handler for it. -/

/-- Outcome of one `requests.get` call. -/
inductive HttpOutcome where
  | resp (status : Nat) (body : String)
  | netError (cause : String)

/-- What a request-failure error carries. -/
inductive FailureInfo where
  | httpStatus (code : Nat)
  | network (cause : String)
deriving DecidableEq

/-- The application-level error classes relevant to the HTTP and
environment layers (`errors.py`), plus `rawRequestException` for a
`requests` exception that no layer catches. -/
inductive AppError where
  | envValidation (msg : String)
  | httpRequest (url : String) (info : FailureInfo)
  | download (url : String) (info : FailureInfo)
  | extraction (msg : String)
  | rawRequestException (cause : String)
deriving DecidableEq

/-- Model of `http_client.httpGet` (environment variant): wraps every
transport failure in `HttpRequestError` carrying the URL and cause, and
treats every status of at least 400 as `HttpRequestError` carrying the URL
and status. -/
def httpGet (net : String → HttpOutcome) (url : String) :
    Except AppError (Nat × String) :=
  match net url with
  | .netError c => .error (.httpRequest url (.network c))
  | .resp s b =>
    if 400 ≤ s then .error (.httpRequest url (.httpStatus s))
    else .ok (s, b)

/-- Model of `files.downloadFile`: wraps transport failures and statuses of
at least 400 in `DownloadError`; on success the streamed body is written to
the destination (the write itself is elided, the written content is the
returned body). -/
def downloadFile (net : String → HttpOutcome) (url : String) :
    Except AppError String :=
  match net url with
  | .netError c => .error (.download url (.network c))
  | .resp s b =>
    if 400 ≤ s then .error (.download url (.httpStatus s))
    else .ok b

def mcVersionsUrl : String := "https://mcversions.net/download/"

/-- Model of `vanilla_module.fetchServerJarUrl`: calls `requests.get` with
no exception handler (a transport failure propagates raw) and never checks
the status code; it scrapes whatever body came back. -/
def fetchServerJarUrlVanilla (net : String → HttpOutcome) (version : String) :
    Except AppError String :=
  match net (mcVersionsUrl ++ version) with
  | .netError c => .error (.rawRequestException c)
  | .resp _ body =>
    match extractServerJarUrl body.data with
    | none => .error (.extraction "Unable to locate server.jar URL in download page")
    | some u => .ok (String.mk u)

/-- Model of `manual_module.downloadServerPack`: calls `requests.get` with
no exception handler (a transport failure propagates raw) and never checks
the status code; the body is streamed to a temporary file, read back and
returned (the temporary file round trip is elided; the model assumes a
content-length header is present, the only case in which the code writes
the file it then reads back). -/
def downloadServerPackManual (net : String → HttpOutcome) (url : String) :
    Except AppError String :=
  match net url with
  | .netError c => .error (.rawRequestException c)
  | .resp _ body => .ok body

/-! ## `utils/environment.py`: environment-variable collection (claim C9)

The ambient environment-variable table is a function from name to optional
value.  `collectEnvironment` validates `EULA`, `VERSION`, `WORKING_DIR` and
`TYPE` in that order, then the CurseForge credentials when the type is
CURSEFORGE, raising `EnvironmentValidationError` at the first violation.
The `workingDir.mkdir` side effect and the `printStatus` output are elided;
`Path.is_absolute` is modelled for POSIX paths (leading `/`);
`str.lower` is modelled on ASCII letters, which covers the checked literals. -/

/-- The server-type enumeration of `constants.py`. -/
inductive ServerType where
  | VANILLA
  | CURSEFORGE
  | MANUAL
deriving DecidableEq

/-- Model of `ServerType.fromString`. -/
def ServerType.fromString (s : String) : Option ServerType :=
  if s = "VANILLA" then some .VANILLA
  else if s = "CURSEFORGE" then some .CURSEFORGE
  else if s = "MANUAL" then some .MANUAL
  else none

/-- The configuration dataclass of `environment.py`. -/
structure EnvironmentConfig where
  version : String
  workingDir : String
  serverType : ServerType
  curseforgeApiToken : Option String
  curseforgeModpackId : Option String
deriving DecidableEq

/-- ASCII model of `str.lower` on one character. -/
def pyLowerChar (c : Char) : Char :=
  if 'A' ≤ c ∧ c ≤ 'Z' then Char.ofNat (c.toNat + 32) else c

/-- ASCII model of `str.lower`. -/
def pyLower (s : String) : String := String.mk (s.data.map pyLowerChar)

/-- String-level wrapper for `pyStrip`. -/
def pyStripS (s : String) : String := String.mk (pyStrip s.data)

/-- Model of `environment.getEnv`: a missing or blank-after-strip value is
`None` when optional and an `EnvironmentValidationError` otherwise; a
present value is returned stripped. -/
def getEnv (env : String → Option String) (name : String) (optional : Bool) :
    Except AppError (Option String) :=
  match env name with
  | none =>
    if optional then .ok none
    else .error (.envValidation ("Environment variable " ++ name ++ " is required"))
  | some v =>
    if pyStrip v.data = [] then
      if optional then .ok none
      else .error (.envValidation ("Environment variable " ++ name ++ " is required"))
    else .ok (some (pyStripS v))

/-- Model of `environment.validateSemver`: `re.fullmatch` of
`\d+\.\d+\.\d+` (three nonempty digit runs separated by dots, nothing
after; the greedy digit runs are deterministic because a digit cannot also
be the following dot). -/
def validateSemver (cs : Line) : Bool :=
  let r1 := cs.dropWhile Char.isDigit
  match r1 with
  | '.' :: r1t =>
    let r2 := r1t.dropWhile Char.isDigit
    match r2 with
    | '.' :: r2t =>
      let r3 := r2t.dropWhile Char.isDigit
      !(cs.takeWhile Char.isDigit).isEmpty &&
      !(r1t.takeWhile Char.isDigit).isEmpty &&
      !(r2t.takeWhile Char.isDigit).isEmpty && r3.isEmpty
    | _ => false
  | _ => false

/-- POSIX model of `pathlib.Path.is_absolute`. -/
def isAbsolutePath (s : String) : Bool :=
  match s.data with
  | '/' :: _ => true
  | _ => false

/-- The first-set-wins credential lookup of `collectEnvironment`: read the
primary variable optionally and fall back to the alias when it is unset. -/
def getEnvFirst (env : String → Option String) (n1 n2 : String) :
    Except AppError (Option String) := do
  let v ← getEnv env n1 true
  match v with
  | none => getEnv env n2 true
  | some _ => pure v

/-- Model of `environment.collectEnvironment` (lines 42-124): validation of
the environment-variable surface in source order. -/
def collectEnvironment (env : String → Option String) :
    Except AppError EnvironmentConfig := do
  let eulaValue ← getEnv env "EULA" false
  if (match eulaValue with
      | some e => decide (pyLower e ≠ "true")
      | none => false) then
    throw (AppError.envValidation "EULA must be accepted (set to true)")
  else do
    let versionValue ← getEnv env "VERSION" false
    if (match versionValue with
        | some vv => !validateSemver vv.data
        | none => false) then
      throw (AppError.envValidation "VERSION must follow semantic versioning (X.Y.Z)")
    else do
      let workingDirValue ← getEnv env "WORKING_DIR" false
      if (match workingDirValue with
          | some w => !isAbsolutePath w
          | none => false) then
        throw (AppError.envValidation "WORKING_DIR must be an absolute path")
      else do
        let serverTypeValue ← getEnv env "TYPE" false
        match (match serverTypeValue with
               | some t => ServerType.fromString t
               | none => none) with
        | none => throw (AppError.envValidation "Unsupported server type")
        | some serverType =>
          if serverType = ServerType.CURSEFORGE then do
            let t2 ← getEnvFirst env "CURSEFORGE_API_TOKEN" "CF_API_TOKEN"
            match t2 with
            | none =>
              throw (AppError.envValidation
                "CURSEFORGE_API_TOKEN or CF_API_TOKEN must be provided for CurseForge server type")
            | some tk =>
              if pyStrip tk.data = [] then
                throw (AppError.envValidation
                  "CURSEFORGE_API_TOKEN or CF_API_TOKEN must be provided for CurseForge server type")
              else do
                let m2 ← getEnvFirst env "CURSEFORGE_MODPACK_ID" "CF_MODPACK_ID"
                match m2 with
                | none =>
                  throw (AppError.envValidation
                    "CURSEFORGE_MODPACK_ID or CF_MODPACK_ID must be provided for CurseForge server type")
                | some mid =>
                  if pyStrip mid.data = [] then
                    throw (AppError.envValidation
                      "CURSEFORGE_MODPACK_ID or CF_MODPACK_ID must be provided for CurseForge server type")
                  else
                    pure
                      { version := match versionValue with | some v => v | none => ""
                        workingDir :=
                          match workingDirValue with | some w => w | none => "."
                        serverType := serverType
                        curseforgeApiToken := some (pyStripS tk)
                        curseforgeModpackId := some (pyStripS mid) }
          else
            pure
              { version := match versionValue with | some v => v | none => ""
                workingDir := match workingDirValue with | some w => w | none => "."
                serverType := serverType
                curseforgeApiToken := none
                curseforgeModpackId := none }

/-! ## `utils/curseforge-api.py`: lenient JSON decoding (claims C5, C6, C10)

JSON values as produced by `response.json()` (`json.loads`): `None`,
booleans, numbers, strings, arrays and objects.  Numbers are modelled as
integers; no claim exercises float payloads.  `str()` of containers is
modelled by an opaque rendering, since no claim depends on its exact text.
Python iteration (`for item in x`) succeeds on arrays (elements), strings
(one-character strings) and dicts (their keys), and raises `TypeError` on
`None`, booleans and numbers; `pyIter` captures this. -/

inductive Json where
  | null
  | bool (b : Bool)
  | num (n : Int)
  | str (s : String)
  | arr (items : List Json)
  | obj (fields : List (String × Json))

/-- The failure modes of the decoder: the `CurseForgeApiError` it raises
deliberately and the `TypeError` Python raises when iterating a
non-iterable. -/
inductive PyErr where
  | curseForgeApi (msg : String)
  | typeError
deriving DecidableEq

/-- Model of `dict.get(k)`: the value under the first matching key. -/
def jget (fields : List (String × Json)) (k : String) : Option Json :=
  match fields with
  | [] => none
  | (k', v) :: rest => if k' = k then some v else jget rest k

/-- Model of `dict.get(k, d)`. -/
def jgetD (fields : List (String × Json)) (k : String) (d : Json) : Json :=
  (jget fields k).getD d

/-- Python iteration over a JSON value. -/
def pyIter : Json → Except PyErr (List Json)
  | .arr xs => .ok xs
  | .str s => .ok (s.data.map fun c => Json.str (String.mk [c]))
  | .obj kvs => .ok (kvs.map fun p => Json.str p.1)
  | _ => .error .typeError

/-- Model of `bool(x)` on a JSON value. -/
def pyBool : Json → Bool
  | .null => false
  | .bool b => b
  | .num n => n ≠ 0
  | .str s => s ≠ ""
  | .arr xs => !xs.isEmpty
  | .obj kvs => !kvs.isEmpty

/-- Model of `str(x)` on a JSON value; the rendering of containers is an
opaque placeholder, as no claim depends on it. -/
def pyStr : Json → String
  | .null => "None"
  | .bool true => "True"
  | .bool false => "False"
  | .num n => toString n
  | .str s => s
  | .arr _ => "[...]"
  | .obj _ => "\x7b...\x7d"

/-- Value of an ASCII digit run. -/
def digitsVal (cs : Line) : Nat :=
  cs.foldl (fun a c => a * 10 + (c.toNat - 48)) 0

/-- Model of `int(s)` on a stripped nonempty string: an optional sign
followed by a nonempty ASCII digit run (underscore separators and non-ASCII
digits are not modelled; no claim exercises them). -/
def parseDigits (cs : Line) : Option Nat :=
  if cs = [] then none
  else if cs.all Char.isDigit then some (digitsVal cs) else none

def parseIntChars : Line → Option Int
  | '+' :: rest => (parseDigits rest).map Int.ofNat
  | '-' :: rest => (parseDigits rest).map fun n => -(n : Int)
  | cs => (parseDigits cs).map Int.ofNat

/-- Model of `_parseInt`: `int()` coercion of booleans, numbers and numeric
strings, `None` otherwise. -/
def parseIntJson : Json → Option Int
  | .bool b => some (if b then 1 else 0)
  | .num n => some n
  | .str s =>
    let st := pyStrip s.data
    if st = [] then none else parseIntChars st
  | _ => none

/-- Model of `_toInt` (default 0 at every call site). -/
def toInt (v : Json) : Int := (parseIntJson v).getD 0

/-- Model of `_toOptionalInt`. -/
def toOptionalInt (v : Json) : Option Int := parseIntJson v

/-- Model of `_toOptionalBool`. -/
def toOptionalBool : Json → Option Bool
  | .bool b => some b
  | .num n => some (decide (n ≠ 0))
  | .str s =>
    let lowered := pyLower (String.mk (pyStrip s.data))
    if lowered = "true" ∨ lowered = "1" ∨ lowered = "yes" then some true
    else if lowered = "false" ∨ lowered = "0" ∨ lowered = "no" then some false
    else none
  | _ => none

/-- Model of `_toStr` (default `""` at every call site): `None` becomes the
default, anything else is `str()`-rendered. -/
def toStr : Json → String
  | .null => ""
  | v => pyStr v

/-- The `isinstance(item, dict)` filter of `_mapList` and of
`parseGetFilesResponse`. -/
def asObjRecord : Json → Option (List (String × Json))
  | .obj o => some o
  | _ => none

/-- Whether a JSON value is an object. -/
def isJsonObj : Json → Bool
  | .obj _ => true
  | _ => false

/-- Model of `_mapList`: iterate (may raise `TypeError`), keep only the
object elements, map the record decoder over them. -/
def mapList {α : Type} (items : Json) (mapper : List (String × Json) → α) :
    Except PyErr (List α) := do
  let xs ← pyIter items
  pure ((xs.filterMap asObjRecord).map mapper)

structure FileHash where
  value : String
  algo : Int
deriving DecidableEq

def FileHash.fromDict (d : List (String × Json)) : FileHash :=
  { value := toStr (jgetD d "value" .null)
    algo := toInt (jgetD d "algo" .null) }

structure SortableGameVersion where
  gameVersionName : String
  gameVersionPadded : String
  gameVersion : String
  gameVersionReleaseDate : String
  gameVersionTypeId : Option Int
deriving DecidableEq

def SortableGameVersion.fromDict (d : List (String × Json)) : SortableGameVersion :=
  { gameVersionName := toStr (jgetD d "gameVersionName" .null)
    gameVersionPadded := toStr (jgetD d "gameVersionPadded" .null)
    gameVersion := toStr (jgetD d "gameVersion" .null)
    gameVersionReleaseDate := toStr (jgetD d "gameVersionReleaseDate" .null)
    gameVersionTypeId := toOptionalInt (jgetD d "gameVersionTypeId" .null) }

structure FileDependency where
  modId : Int
  relationType : Int
deriving DecidableEq

def FileDependency.fromDict (d : List (String × Json)) : FileDependency :=
  { modId := toInt (jgetD d "modId" .null)
    relationType := toInt (jgetD d "relationType" .null) }

structure FileModule where
  name : String
  fingerprint : Int
deriving DecidableEq

def FileModule.fromDict (d : List (String × Json)) : FileModule :=
  { name := toStr (jgetD d "name" .null)
    fingerprint := toInt (jgetD d "fingerprint" .null) }

structure FileData where
  id : Int
  gameId : Int
  modId : Int
  isAvailable : Bool
  displayName : String
  fileName : String
  releaseType : Int
  fileStatus : Int
  hashes : List FileHash
  fileDate : String
  fileLength : Int
  downloadCount : Int
  fileSizeOnDisk : Option Int
  downloadUrl : Option String
  gameVersions : List String
  sortableGameVersions : List SortableGameVersion
  dependencies : List FileDependency
  exposeAsAlternative : Option Bool
  parentProjectFileId : Option Int
  alternateFileId : Option Int
  isServerPack : Option Bool
  serverPackFileId : Option Int
  isEarlyAccessContent : Option Bool
  earlyAccessEndDate : Option String
  fileFingerprint : Int
  modules : List FileModule
deriving DecidableEq

/-- Model of `FileData.fromDict`.  The five list-typed fields are the only
fallible decodes (Python evaluates the constructor arguments in source
order and the scalar coercions are total, so hoisting the fallible ones
preserves behaviour, including which error is raised). -/
def FileData.fromDict (d : List (String × Json)) : Except PyErr FileData := do
  let hashes ← mapList (jgetD d "hashes" (.arr [])) FileHash.fromDict
  let gameVersionsRaw ← pyIter (jgetD d "gameVersions" (.arr []))
  let sortableGameVersions ←
    mapList (jgetD d "sortableGameVersions" (.arr [])) SortableGameVersion.fromDict
  let dependencies ← mapList (jgetD d "dependencies" (.arr [])) FileDependency.fromDict
  let modules ← mapList (jgetD d "modules" (.arr [])) FileModule.fromDict
  pure
    { id := toInt (jgetD d "id" .null)
      gameId := toInt (jgetD d "gameId" .null)
      modId := toInt (jgetD d "modId" .null)
      isAvailable := pyBool (jgetD d "isAvailable" (.bool false))
      displayName := toStr (jgetD d "displayName" .null)
      fileName := toStr (jgetD d "fileName" .null)
      releaseType := toInt (jgetD d "releaseType" .null)
      fileStatus := toInt (jgetD d "fileStatus" .null)
      hashes := hashes
      fileDate := toStr (jgetD d "fileDate" .null)
      fileLength := toInt (jgetD d "fileLength" .null)
      downloadCount := toInt (jgetD d "downloadCount" .null)
      fileSizeOnDisk := toOptionalInt (jgetD d "fileSizeOnDisk" .null)
      downloadUrl :=
        match jgetD d "downloadUrl" .null with
        | .null => none
        | v => some (toStr v)
      gameVersions := gameVersionsRaw.map toStr
      sortableGameVersions := sortableGameVersions
      dependencies := dependencies
      exposeAsAlternative := toOptionalBool (jgetD d "exposeAsAlternative" .null)
      parentProjectFileId := toOptionalInt (jgetD d "parentProjectFileId" .null)
      alternateFileId := toOptionalInt (jgetD d "alternateFileId" .null)
      isServerPack := toOptionalBool (jgetD d "isServerPack" .null)
      serverPackFileId := toOptionalInt (jgetD d "serverPackFileId" .null)
      isEarlyAccessContent := toOptionalBool (jgetD d "isEarlyAccessContent" .null)
      earlyAccessEndDate :=
        match jgetD d "earlyAccessEndDate" .null with
        | .null => none
        | v => some (toStr v)
      fileFingerprint := toInt (jgetD d "fileFingerprint" .null)
      modules := modules }

/-- The `FileData` record decoded from the empty JSON object: the documented
defaults (0 for every number, false for the boolean, the empty string for
strings, `None` for every nullable field, empty lists). -/
def defaultFileData : FileData :=
  { id := 0
    gameId := 0
    modId := 0
    isAvailable := false
    displayName := ""
    fileName := ""
    releaseType := 0
    fileStatus := 0
    hashes := []
    fileDate := ""
    fileLength := 0
    downloadCount := 0
    fileSizeOnDisk := none
    downloadUrl := none
    gameVersions := []
    sortableGameVersions := []
    dependencies := []
    exposeAsAlternative := none
    parentProjectFileId := none
    alternateFileId := none
    isServerPack := none
    serverPackFileId := none
    isEarlyAccessContent := none
    earlyAccessEndDate := none
    fileFingerprint := 0
    modules := [] }

structure Pagination where
  index : Int
  pageSize : Int
  resultCount : Int
  totalCount : Int
deriving DecidableEq

def Pagination.fromDict (d : List (String × Json)) : Pagination :=
  { index := toInt (jgetD d "index" .null)
    pageSize := toInt (jgetD d "pageSize" .null)
    resultCount := toInt (jgetD d "resultCount" .null)
    totalCount := toInt (jgetD d "totalCount" .null) }

structure GetFilesResponse where
  data : List FileData
  pagination : Option Pagination
deriving DecidableEq

/-- Model of `parseGetFilesResponse` (lines 207-220): reject a non-object
payload; default a missing `data` to `[]` and reject a present non-array
`data`; decode the object elements of the array in order; decode an object
`pagination` field, defaulting anything else to `None`. -/
def parseGetFilesResponse (payload : Json) : Except PyErr GetFilesResponse :=
  match payload with
  | .obj kvs =>
    match jgetD kvs "data" (.arr []) with
    | .arr xs => do
      let files ← (xs.filterMap asObjRecord).mapM FileData.fromDict
      pure
        { data := files
          pagination :=
            match jgetD kvs "pagination" .null with
            | .obj p => some (Pagination.fromDict p)
            | _ => none }
    | _ =>
      .error (.curseForgeApi "CurseForge API response payload is missing a data array")
  | _ =>
    .error (.curseForgeApi "CurseForge API response payload is not a JSON object")

/-- Model of `extractDownloadUrl` (lines 223-226). -/
def extractDownloadUrl (response : GetFilesResponse) : Option String :=
  match response.data with
  | [] => none
  | fd :: _ => fd.downloadUrl

/-- Whether the envelope is structurally acceptable to the decoder: an
object whose `data` field, when present, is an array. -/
def envelopeOk (payload : Json) : Bool :=
  match payload with
  | .obj kvs =>
    match jget kvs "data" with
    | none => true
    | some (.arr _) => true
    | some _ => false
  | _ => false

/-- Whether a JSON value supports Python iteration. -/
def iterableJson : Json → Bool
  | .arr _ => true
  | .str _ => true
  | .obj _ => true
  | _ => false

/-- Whether every list-typed field of a file record is absent or iterable:
exactly the condition under which `FileData.fromDict` cannot raise. -/
def listFieldsIterable (d : List (String × Json)) : Bool :=
  iterableJson (jgetD d "hashes" (.arr [])) &&
  iterableJson (jgetD d "gameVersions" (.arr [])) &&
  iterableJson (jgetD d "sortableGameVersions" (.arr [])) &&
  iterableJson (jgetD d "dependencies" (.arr [])) &&
  iterableJson (jgetD d "modules" (.arr []))

/-- The first object-typed element of a JSON array, as a record. -/
def firstObjRecord : List Json → Option (List (String × Json))
  | [] => none
  | .obj kvs :: _ => some kvs
  | _ :: rest => firstObjRecord rest

/-! ## Lemmas about the string primitives -/

theorem dropWhile_head_not {p : Char → Bool} {l t : Line} {c : Char}
    (h : l.dropWhile p = c :: t) : p c = false := by
  induction l with
  | nil => simp [List.dropWhile] at h
  | cons a l ih =>
    rw [List.dropWhile_cons] at h
    by_cases hp : p a
    · simp [hp] at h; exact ih h
    · simp [hp] at h; simpa [h.1] using hp

theorem dropWhile_append_singleton {p : Char → Bool} {c : Char}
    (hc : p c = false) (l : Line) :
    (l ++ [c]).dropWhile p = l.dropWhile p ++ [c] := by
  induction l with
  | nil => simp [List.dropWhile, hc]
  | cons a l ih =>
    rw [List.cons_append, List.dropWhile_cons, List.dropWhile_cons]
    by_cases hp : p a <;> simp [hp, ih]

theorem dropWhile_idem (p : Char → Bool) (l : Line) :
    (l.dropWhile p).dropWhile p = l.dropWhile p := by
  cases h : l.dropWhile p with
  | nil => rfl
  | cons c t => rw [List.dropWhile_cons, dropWhile_head_not h]; simp

theorem length_dropWhile_le (p : Char → Bool) (l : Line) :
    (l.dropWhile p).length ≤ l.length := by
  induction l with
  | nil => simp
  | cons a l ih =>
    rw [List.dropWhile_cons]
    by_cases hp : p a <;> simp [hp] <;> omega

theorem dropWhile_eq_self_of_length {p : Char → Bool} {l : Line}
    (h : (l.dropWhile p).length = l.length) : l.dropWhile p = l := by
  induction l with
  | nil => rfl
  | cons a l _ =>
    rw [List.dropWhile_cons] at h ⊢
    by_cases hp : p a
    · simp [hp] at h ⊢
      have := length_dropWhile_le p l
      omega
    · simp [hp]

theorem mem_dropWhile {p : Char → Bool} {l : Line} {c : Char}
    (h : c ∈ l.dropWhile p) : c ∈ l :=
  (List.dropWhile_sublist p).subset h

/-! Lemmas about `pyLStrip`, `pyRStrip`, `pyStrip`. -/

theorem pyLStrip_nonspace_head {l t : Line} {c : Char}
    (h : pyLStrip l = c :: t) : isPySpace c = false :=
  dropWhile_head_not h

theorem pyRStrip_cons {c : Char} (hc : isPySpace c = false) (t : Line) :
    pyRStrip (c :: t) = c :: pyRStrip t := by
  unfold pyRStrip
  rw [List.reverse_cons, dropWhile_append_singleton hc, List.reverse_append]
  rfl

theorem pyRStrip_idem (l : Line) : pyRStrip (pyRStrip l) = pyRStrip l := by
  unfold pyRStrip
  rw [List.reverse_reverse, dropWhile_idem]

theorem pyLStrip_cons_nonspace {c : Char} (hc : isPySpace c = false) (t : Line) :
    pyLStrip (c :: t) = c :: t := by
  unfold pyLStrip
  rw [List.dropWhile_cons]
  simp [hc]

theorem pyStrip_cons_nonspace {c : Char} (hc : isPySpace c = false) (t : Line) :
    pyStrip (c :: t) = c :: pyRStrip t := by
  unfold pyStrip
  rw [pyLStrip_cons_nonspace hc, pyRStrip_cons hc]

theorem length_pyRStrip_le (l : Line) : (pyRStrip l).length ≤ l.length := by
  unfold pyRStrip
  rw [List.length_reverse]
  calc (l.reverse.dropWhile isPySpace).length ≤ l.reverse.length :=
        length_dropWhile_le _ _
    _ = l.length := List.length_reverse l

theorem pyLStrip_of_strip_fixed {l : Line} (h : pyStrip l = l) : pyLStrip l = l := by
  have h1 : (pyStrip l).length = l.length := by rw [h]
  have h2 : (pyStrip l).length ≤ (pyLStrip l).length := length_pyRStrip_le _
  have h3 : (pyLStrip l).length ≤ l.length := length_dropWhile_le _ _
  unfold pyLStrip at h2 h3 ⊢
  exact dropWhile_eq_self_of_length (by omega)

theorem pyStrip_idem (l : Line) : pyStrip (pyStrip l) = pyStrip l := by
  cases h : pyLStrip l with
  | nil => unfold pyStrip; rw [h]; rfl
  | cons c t =>
    have hc := pyLStrip_nonspace_head h
    have hs : pyStrip l = c :: pyRStrip t := by unfold pyStrip; rw [h, pyRStrip_cons hc]
    rw [hs, pyStrip_cons_nonspace hc, pyRStrip_idem]

theorem pyStrip_head? {l t : Line} {c : Char} (h : pyLStrip l = c :: t) :
    (pyStrip l).head? = some c := by
  unfold pyStrip
  rw [h, pyRStrip_cons (pyLStrip_nonspace_head h)]
  rfl

theorem pyStrip_ne_nil {l t : Line} {c : Char} (h : pyLStrip l = c :: t) :
    pyStrip l ≠ [] := by
  unfold pyStrip
  rw [h, pyRStrip_cons (pyLStrip_nonspace_head h)]
  simp

theorem mem_pyRStrip {l : Line} {c : Char} (h : c ∈ pyRStrip l) : c ∈ l := by
  unfold pyRStrip at h
  rw [List.mem_reverse] at h
  have := mem_dropWhile h
  rwa [List.mem_reverse] at this

theorem mem_pyStrip {l : Line} {c : Char} (h : c ∈ pyStrip l) : c ∈ l :=
  mem_dropWhile (mem_pyRStrip h)

theorem pyLStrip_append {A : Line} (hne : pyLStrip A ≠ []) (B : Line) :
    pyLStrip (A ++ B) = pyLStrip A ++ B := by
  induction A with
  | nil => simp [pyLStrip] at hne
  | cons a A ih =>
    unfold pyLStrip at *
    rw [List.cons_append, List.dropWhile_cons, List.dropWhile_cons] at *
    by_cases hp : isPySpace a
    · simp only [hp, if_true] at hne ⊢
      exact ih hne
    · simp [hp]

/-! Lemmas about `takeWhile` and the key extraction. -/

theorem takeWhile_append_all {p : Char → Bool} {A : Line} (h : ∀ c ∈ A, p c)
    (B : Line) : (A ++ B).takeWhile p = A ++ B.takeWhile p := by
  induction A with
  | nil => simp
  | cons a A ih =>
    rw [List.cons_append, List.takeWhile_cons, h a (by simp)]
    simp [ih (fun c hc => h c (by simp [hc]))]

theorem mem_takeWhile_sat {p : Char → Bool} {l : Line} {c : Char}
    (h : c ∈ l.takeWhile p) : p c = true := by
  induction l with
  | nil => simp [List.takeWhile] at h
  | cons a l ih =>
    rw [List.takeWhile_cons] at h
    by_cases hp : p a
    · simp [hp] at h
      rcases h with rfl | h
      · exact hp
      · exact ih h
    · simp [hp] at h

theorem mem_takeWhile_mem {p : Char → Bool} {l : Line} {c : Char}
    (h : c ∈ l.takeWhile p) : c ∈ l :=
  (List.takeWhile_sublist p).subset h

/-! Lemmas about `pySplitlines` and `joinLines`. -/

theorem pySplitlines_crlf (t : Line) :
    pySplitlines ('\x0d' :: '\n' :: t) = [] :: pySplitlines t := by
  rw [pySplitlines]
  simp

theorem pySplitlines_cons_boundary {c : Char} {s : Line}
    (hb : isLineBoundary c = true) (hnot : ¬(c = '\x0d' ∧ s.head? = some '\n')) :
    pySplitlines (c :: s) = [] :: pySplitlines s := by
  cases s with
  | nil => simp [pySplitlines, hb]
  | cons d t =>
    rw [pySplitlines]
    have hcd : (c = '\x0d' && d = '\n') = false := by
      by_cases h1 : c = '\x0d'
      · have h2 : d ≠ '\n' := fun hd => hnot ⟨h1, by simp [hd]⟩
        simp [h2]
      · simp [h1]
    rw [if_neg (by simp [hcd]), if_pos hb]

theorem pySplitlines_cons_nonboundary {c : Char} (hb : isLineBoundary c = false)
    (s : Line) :
    pySplitlines (c :: s) =
      match pySplitlines s with
      | [] => [[c]]
      | l :: ls => (c :: l) :: ls := by
  have hcr : c ≠ '\x0d' := by
    intro h
    rw [h] at hb
    simp [isLineBoundary] at hb
  cases s with
  | nil => simp [pySplitlines, hb]
  | cons d t =>
    rw [pySplitlines]
    rw [if_neg (by simp [hcr]), if_neg (by simp [hb])]

theorem pySplitlines_boundary_free_aux :
    ∀ n (cs : Line), cs.length ≤ n →
      ∀ l ∈ pySplitlines cs, ∀ c ∈ l, isLineBoundary c = false := by
  intro n
  induction n with
  | zero =>
    intro cs hn
    rw [List.length_eq_zero.mp (Nat.le_zero.mp hn)]
    simp [pySplitlines]
  | succ n ih =>
    intro cs hn
    cases cs with
    | nil => simp [pySplitlines]
    | cons c s =>
      by_cases hb : isLineBoundary c
      · by_cases hcrlf : c = '\x0d' ∧ s.head? = some '\n'
        · obtain ⟨rfl, hd⟩ := hcrlf
          cases s with
          | nil => simp at hd
          | cons d t =>
            have hd' : d = '\n' := by simpa using hd
            subst hd'
            rw [pySplitlines_crlf]
            intro l hl
            rcases List.mem_cons.mp hl with rfl | hl
            · simp
            · exact ih t (by simp at hn ⊢; omega) l hl
        · rw [pySplitlines_cons_boundary hb hcrlf]
          intro l hl
          rcases List.mem_cons.mp hl with rfl | hl
          · simp
          · exact ih s (by simp at hn ⊢; omega) l hl
      · have hb' : isLineBoundary c = false := by simpa using hb
        rw [pySplitlines_cons_nonboundary hb']
        have ihs := ih s (by simp at hn ⊢; omega)
        cases hsp : pySplitlines s with
        | nil =>
          intro l hl
          rcases List.mem_singleton.mp hl with rfl
          intro d hd
          rcases List.mem_singleton.mp hd with rfl
          exact hb'
        | cons l0 ls =>
          intro l hl
          rcases List.mem_cons.mp hl with rfl | hl
          · intro d hd
            rcases List.mem_cons.mp hd with rfl | hd
            · exact hb'
            · exact ihs l0 (by rw [hsp]; simp) d hd
          · exact ihs l (by rw [hsp]; simp [hl])

theorem pySplitlines_boundary_free {cs : Line} :
    ∀ l ∈ pySplitlines cs, ∀ c ∈ l, isLineBoundary c = false :=
  pySplitlines_boundary_free_aux cs.length cs Nat.le.refl

theorem pySplitlines_append_free {l : Line} (hl : ∀ c ∈ l, isLineBoundary c = false)
    (s : Line) : pySplitlines (l ++ '\n' :: s) = l :: pySplitlines s := by
  induction l with
  | nil =>
    rw [List.nil_append]
    exact pySplitlines_cons_boundary (by simp [isLineBoundary]) (by simp)
  | cons c l ih =>
    have hc : isLineBoundary c = false := hl c (by simp)
    rw [List.cons_append, pySplitlines_cons_nonboundary hc]
    rw [ih (fun d hd => hl d (by simp [hd]))]

theorem pySplitlines_joinLines {U : List Line} (hU : U ≠ [])
    (hfree : ∀ l ∈ U, ∀ c ∈ l, isLineBoundary c = false) :
    pySplitlines (joinLines U ++ ['\n']) = U := by
  induction U with
  | nil => exact absurd rfl hU
  | cons l U ih =>
    cases U with
    | nil =>
      show pySplitlines (l ++ '\n' :: []) = [l]
      rw [pySplitlines_append_free (hfree l (by simp))]
      rfl
    | cons l2 U2 =>
      show pySplitlines ((l ++ '\n' :: joinLines (l2 :: U2)) ++ ['\n']) = l :: l2 :: U2
      rw [List.append_assoc, List.cons_append]
      rw [pySplitlines_append_free (hfree l (by simp))]
      rw [ih (by simp) (fun m hm => hfree m (by simp [hm]))]

/-! ## Lemmas about the merge -/

theorem lookupKey_mem {M : List (Line × Line)} {k v : Line}
    (h : lookupKey M k = some v) : (k, v) ∈ M := by
  induction M with
  | nil => simp [lookupKey] at h
  | cons p rest ih =>
    obtain ⟨k', v'⟩ := p
    rw [lookupKey] at h
    by_cases hk : k' = k
    · rw [if_pos hk] at h
      subst hk
      simp at h
      simp [h]
    · rw [if_neg hk] at h
      exact List.mem_cons_of_mem _ (ih h)

theorem keyOf_append {k : Line} (v : Line) (hk : pyStrip k = k) (he : '=' ∉ k) :
    keyOf (k ++ '=' :: v) = k := by
  unfold keyOf
  rw [takeWhile_append_all (p := fun c => decide (c ≠ '=')) (A := k)
    (fun c hc => decide_eq_true (fun h : c = '=' => he (h ▸ hc)))]
  rw [show List.takeWhile (fun c => decide (c ≠ '=')) ('=' :: v) = [] from by
    simp [List.takeWhile_cons]]
  rw [List.append_nil, hk]

theorem isPassthrough_append_false {k : Line} (v : Line)
    (hk : pyStrip k = k) (hh : k.head? ≠ some '#') :
    isPassthrough (k ++ '=' :: v) = false := by
  have hmem : '=' ∈ k ++ '=' :: v := by simp
  cases k with
  | nil =>
    have h1 : pyStrip ('=' :: v) = '=' :: pyRStrip v :=
      pyStrip_cons_nonspace (by decide) v
    unfold isPassthrough
    rw [List.nil_append, h1]
    simp
  | cons c k' =>
    have hL : pyLStrip (c :: k') = c :: k' := pyLStrip_of_strip_fixed hk
    have hc : isPySpace c = false := dropWhile_head_not hL
    have h1 : pyStrip ((c :: k') ++ '=' :: v) = c :: pyRStrip (k' ++ '=' :: v) := by
      rw [List.cons_append]
      exact pyStrip_cons_nonspace hc _
    have hch : c ≠ '#' := fun h => hh (by simp [h])
    unfold isPassthrough
    rw [h1]
    simp [hch, hmem]

theorem mergeStep_passthrough {M : List (Line × Line)} {line : Line}
    (h : isPassthrough line = true) : mergeStep M line = (line, none) := by
  unfold mergeStep
  simp [h]

theorem mergeStep_keep {M : List (Line × Line)} {line : Line}
    (hnp : isPassthrough line = false) (hv : lookupKey M (keyOf line) = none) :
    mergeStep M line = (line, none) := by
  unfold mergeStep
  simp [hnp, hv]

theorem mergeStep_replace {M : List (Line × Line)} {line v : Line}
    (hnp : isPassthrough line = false) (hv : lookupKey M (keyOf line) = some v) :
    mergeStep M line = (keyOf line ++ '=' :: v, some (keyOf line)) := by
  unfold mergeStep
  simp [hnp, hv]

theorem mergeStep_emit {M : List (Line × Line)} {k v : Line}
    (hk : pyStrip k = k) (he : '=' ∉ k) (hh : k.head? ≠ some '#')
    (hv : lookupKey M k = some v) :
    mergeStep M (k ++ '=' :: v) = (k ++ '=' :: v, some k) := by
  unfold mergeStep
  rw [isPassthrough_append_false v hk hh]
  rw [keyOf_append v hk he, hv]
  simp

theorem pyStrip_keyOf (line : Line) : pyStrip (keyOf line) = keyOf line :=
  pyStrip_idem _

theorem eq_not_mem_keyOf (line : Line) : '=' ∉ keyOf line := by
  intro h
  have h2 := mem_pyStrip h
  have h3 := mem_takeWhile_sat h2
  simp at h3

theorem head_keyOf_ne_hash {line : Line} (hnp : isPassthrough line = false) :
    (keyOf line).head? ≠ some '#' := by
  have h1 : (¬pyStrip line = [] ∧ ¬(pyStrip line).head? = some '#') ∧ '=' ∈ line := by
    unfold isPassthrough at hnp
    simpa using hnp
  cases hLA : pyLStrip (line.takeWhile (fun c => decide (c ≠ '='))) with
  | nil =>
    have : keyOf line = [] := by
      unfold keyOf pyStrip
      rw [hLA]
      rfl
    rw [this]
    simp
  | cons c t =>
    have hkh : (keyOf line).head? = some c := pyStrip_head? hLA
    have hne : pyLStrip (line.takeWhile (fun c => decide (c ≠ '='))) ≠ [] := by
      rw [hLA]
      simp
    have hLl : pyLStrip line = c :: (t ++ line.dropWhile (fun c => decide (c ≠ '='))) := by
      conv_lhs =>
        rw [← List.takeWhile_append_dropWhile (p := fun c => decide (c ≠ '=')) (l := line)]
      rw [pyLStrip_append hne, hLA, List.cons_append]
    have hhl : (pyStrip line).head? = some c := pyStrip_head? hLl
    intro hx
    rw [hkh] at hx
    apply h1.1.2
    rw [hhl, ← hx]

theorem parsedKey_emit {k : Line} (v : Line) (hk : pyStrip k = k) (he : '=' ∉ k)
    (hh : k.head? ≠ some '#') : parsedKey (k ++ '=' :: v) = some k := by
  unfold parsedKey
  rw [isPassthrough_append_false v hk hh]
  rw [keyOf_append v hk he]
  simp

theorem mergeExisting_cons (M : List (Line × Line)) (line : Line) (rest : List Line) :
    mergeExisting M (line :: rest) =
      ((mergeStep M line).1 :: (mergeExisting M rest).1,
       match (mergeStep M line).2 with
       | some k => k :: (mergeExisting M rest).2
       | none => (mergeExisting M rest).2) := rfl

theorem mergeStep_snd_some {M : List (Line × Line)} {line k : Line}
    (h : (mergeStep M line).2 = some k) :
    ∃ v, lookupKey M k = some v ∧ (mergeStep M line).1 = k ++ '=' :: v := by
  unfold mergeStep at h ⊢
  by_cases hp : isPassthrough line
  · simp [hp] at h
  · cases hv : lookupKey M (keyOf line) with
    | none => simp [hp, hv] at h
    | some v =>
      simp [hp, hv] at h ⊢
      subst h
      exact ⟨v, hv, rfl⟩

theorem mergeExisting_length (M : List (Line × Line)) (T : List Line) :
    (mergeExisting M T).1.length = T.length := by
  induction T with
  | nil => rfl
  | cons line rest ih => rw [mergeExisting_cons]; simpa using ih

theorem mergeExisting_filter_passthrough (M : List (Line × Line)) (T : List Line) :
    ((mergeExisting M T).1).filter isPassthrough = T.filter isPassthrough := by
  induction T with
  | nil => rfl
  | cons line rest ih =>
    rw [mergeExisting_cons]
    by_cases hp : isPassthrough line
    · rw [mergeStep_passthrough hp]
      simp only [List.filter_cons, hp, if_true]
      simp [ih]
    · have hp' : isPassthrough line = false := by simpa using hp
      cases hv : lookupKey M (keyOf line) with
      | some v =>
        rw [mergeStep_replace hp' hv]
        have hout : isPassthrough (keyOf line ++ '=' :: v) = false :=
          isPassthrough_append_false v (pyStrip_keyOf line) (head_keyOf_ne_hash hp')
        simp [List.filter_cons, hp', hout, ih]
      | none =>
        rw [mergeStep_keep hp' hv]
        simp [List.filter_cons, hp', ih]

theorem mergeExisting_out_stable (M : List (Line × Line)) (T : List Line) :
    ∀ l ∈ (mergeExisting M T).1, (mergeStep M l).1 = l := by
  induction T with
  | nil => simp [mergeExisting]
  | cons line rest ih =>
    rw [mergeExisting_cons]
    intro l hl
    rcases List.mem_cons.mp hl with rfl | hl
    · by_cases hp : isPassthrough line
      · rw [mergeStep_passthrough hp, mergeStep_passthrough hp]
      · have hp' : isPassthrough line = false := by simpa using hp
        cases hv : lookupKey M (keyOf line) with
        | some v =>
          rw [mergeStep_replace hp' hv]
          rw [mergeStep_emit (pyStrip_keyOf line) (eq_not_mem_keyOf line)
            (head_keyOf_ne_hash hp') hv]
        | none =>
          rw [mergeStep_keep hp' hv, mergeStep_keep hp' hv]
    · exact ih l hl

theorem applied_of_mem {M : List (Line × Line)} {T : List Line} {l k : Line}
    (hl : l ∈ T) (h : (mergeStep M l).2 = some k) :
    k ∈ (mergeExisting M T).2 := by
  induction T with
  | nil => simp at hl
  | cons line rest ih =>
    rw [mergeExisting_cons]
    rcases List.mem_cons.mp hl with rfl | hl
    · rw [h]
      simp
    · cases hs : (mergeStep M line).2 with
      | none => exact ih hl
      | some k' => simpa using Or.inr (ih hl)

theorem mem_out_of_applied {M : List (Line × Line)} {T : List Line} {k : Line}
    (h : k ∈ (mergeExisting M T).2) :
    ∃ v, lookupKey M k = some v ∧ (k ++ '=' :: v) ∈ (mergeExisting M T).1 := by
  induction T with
  | nil => simp [mergeExisting] at h
  | cons line rest ih =>
    rw [mergeExisting_cons] at h ⊢
    cases hs : (mergeStep M line).2 with
    | none =>
      rw [hs] at h
      obtain ⟨v, hv, hmem⟩ := ih h
      exact ⟨v, hv, by simp [hmem]⟩
    | some k' =>
      rw [hs] at h
      rcases List.mem_cons.mp h with rfl | h
      · obtain ⟨v, hv, he⟩ := mergeStep_snd_some hs
        exact ⟨v, hv, by rw [← he]; simp⟩
      · obtain ⟨v, hv, hmem⟩ := ih h
        exact ⟨v, hv, by simp [hmem]⟩

theorem lookup_isSome_of_mem {M : List (Line × Line)} {k v : Line}
    (h : (k, v) ∈ M) : ∃ w, lookupKey M k = some w := by
  induction M with
  | nil => simp at h
  | cons p rest ih =>
    obtain ⟨k', v'⟩ := p
    rw [lookupKey]
    by_cases hk : k' = k
    · exact ⟨v', by rw [if_pos hk]⟩
    · rw [if_neg hk]
      rcases List.mem_cons.mp h with he | h
      · exact absurd (congrArg Prod.fst he).symm hk
      · exact ih h

theorem appendMissing_eq_nil {M : List (Line × Line)} {applied : List Line}
    (h : ∀ p ∈ M, p.1 ∈ applied) : appendMissing applied M = [] := by
  induction M generalizing applied with
  | nil => rfl
  | cons p rest ih =>
    obtain ⟨k, v⟩ := p
    rw [appendMissing]
    rw [if_pos (h (k, v) (by simp))]
    exact ih (fun q hq => h q (by simp [hq]))

theorem eq_nil_appendMissing {M : List (Line × Line)} {applied : List Line}
    (h : appendMissing applied M = []) : ∀ p ∈ M, p.1 ∈ applied := by
  induction M generalizing applied with
  | nil => simp
  | cons p rest ih =>
    obtain ⟨k, v⟩ := p
    rw [appendMissing] at h
    by_cases hk : k ∈ applied
    · rw [if_pos hk] at h
      intro q hq
      rcases List.mem_cons.mp hq with rfl | hq
      · exact hk
      · exact ih h q hq
    · rw [if_neg hk] at h
      exact absurd h (by simp)

theorem appendMissing_forms {M : List (Line × Line)} {applied : List Line} :
    ∀ line ∈ appendMissing applied M,
      ∃ k v, line = k ++ '=' :: v ∧ lookupKey M k = some v ∧ k ∉ applied := by
  induction M generalizing applied with
  | nil => simp [appendMissing]
  | cons p rest ih =>
    obtain ⟨k0, v0⟩ := p
    intro line hline
    rw [appendMissing] at hline
    by_cases hk : k0 ∈ applied
    · rw [if_pos hk] at hline
      obtain ⟨k, v, h1, h2, h3⟩ := ih line hline
      refine ⟨k, v, h1, ?_, h3⟩
      rw [lookupKey, if_neg (fun he : k0 = k => h3 (he ▸ hk))]
      exact h2
    · rw [if_neg hk] at hline
      rcases List.mem_cons.mp hline with rfl | hline
      · exact ⟨k0, v0, rfl, by rw [lookupKey]; simp, hk⟩
      · obtain ⟨k, v, h1, h2, h3⟩ := ih line hline
        have hkk : ¬k0 = k := fun he => h3 (by simp [he])
        have h3' : k ∉ applied := fun hm => h3 (by simp [hm])
        refine ⟨k, v, h1, ?_, h3'⟩
        rw [lookupKey, if_neg hkk]
        exact h2

theorem appendMissing_cover {M : List (Line × Line)} {k v : Line}
    (hv : lookupKey M k = some v) :
    ∀ applied, k ∉ applied → (k ++ '=' :: v) ∈ appendMissing applied M := by
  induction M with
  | nil => simp [lookupKey] at hv
  | cons p rest ih =>
    obtain ⟨k0, v0⟩ := p
    intro applied hk
    rw [lookupKey] at hv
    rw [appendMissing]
    by_cases he : k0 = k
    · subst he
      rw [if_pos rfl] at hv
      simp at hv
      subst hv
      rw [if_neg hk]
      simp
    · rw [if_neg he] at hv
      by_cases hk0 : k0 ∈ applied
      · rw [if_pos hk0]
        exact ih hv applied hk
      · rw [if_neg hk0]
        refine List.mem_cons_of_mem _ (ih hv (k0 :: applied) ?_)
        intro hm
        rcases List.mem_cons.mp hm with rfl | hm
        · exact he rfl
        · exact hk hm

/-! Key-counting lemmas, used to settle the "appears exactly once" claim. -/

theorem keyMatches_emit {M : List (Line × Line)} {k' v k : Line}
    (hclean : ∀ p ∈ M, pyStrip p.1 = p.1 ∧ '=' ∉ p.1 ∧ p.1.head? ≠ some '#')
    (hv : lookupKey M k' = some v) :
    keyMatches k (k' ++ '=' :: v) = decide (k' = k) := by
  obtain ⟨h1, h2, h3⟩ := hclean (k', v) (lookupKey_mem hv)
  unfold keyMatches
  rw [parsedKey_emit v h1 h2 h3]
  simp

theorem appendMissing_filter_nil {M : List (Line × Line)} {k : Line}
    (hclean : ∀ p ∈ M, pyStrip p.1 = p.1 ∧ '=' ∉ p.1 ∧ p.1.head? ≠ some '#')
    {applied : List Line} (hk : k ∈ applied) :
    (appendMissing applied M).filter (keyMatches k) = [] := by
  rw [List.filter_eq_nil_iff]
  intro line hline
  obtain ⟨k', v', rfl, hlv, hnap⟩ := appendMissing_forms line hline
  rw [keyMatches_emit hclean hlv]
  simp
  intro he
  exact absurd (he ▸ hk) hnap

theorem appendMissing_filter_cons {M : List (Line × Line)} {k v : Line}
    (hclean : ∀ p ∈ M, pyStrip p.1 = p.1 ∧ '=' ∉ p.1 ∧ p.1.head? ≠ some '#')
    (hv : lookupKey M k = some v) :
    ∀ applied, k ∉ applied →
      (appendMissing applied M).filter (keyMatches k) = [k ++ '=' :: v] := by
  induction M with
  | nil => simp [lookupKey] at hv
  | cons p rest ih =>
    obtain ⟨k0, v0⟩ := p
    intro applied hk
    have hcr : ∀ p ∈ rest, pyStrip p.1 = p.1 ∧ '=' ∉ p.1 ∧ p.1.head? ≠ some '#' :=
      fun q hq => hclean q (by simp [hq])
    rw [lookupKey] at hv
    rw [appendMissing]
    by_cases he : k0 = k
    · subst he
      rw [if_pos rfl] at hv
      simp only [Option.some.injEq] at hv
      subst hv
      rw [if_neg hk]
      rw [List.filter_cons]
      rw [keyMatches_emit hclean (by rw [lookupKey, if_pos rfl])]
      simp only [decide_eq_true_eq, if_pos rfl]
      rw [appendMissing_filter_nil hcr (by simp)]
      · rfl
    · rw [if_neg he] at hv
      have hvfull : lookupKey ((k0, v0) :: rest) k = some v := by
        rw [lookupKey, if_neg he]
        exact hv
      by_cases hk0 : k0 ∈ applied
      · rw [if_pos hk0]
        exact ih hcr hv applied hk
      · rw [if_neg hk0]
        rw [List.filter_cons]
        rw [keyMatches_emit hclean (by rw [lookupKey, if_pos rfl])]
        simp only [he, decide_eq_true_eq, if_false]
        refine ih hcr hv (k0 :: applied) ?_
        intro hm
        rcases List.mem_cons.mp hm with rfl | hm
        · exact he rfl
        · exact hk hm

theorem countKey_cons (line : Line) (rest : List Line) (k : Line) :
    countKey (line :: rest) k =
      (if keyMatches k line then 1 else 0) + countKey rest k := by
  unfold countKey
  rw [List.filter_cons]
  by_cases h : keyMatches k line
  · simp [h, Nat.add_comm]
  · simp [h]

theorem keyMatches_of_lookup_none {M : List (Line × Line)} {k v line : Line}
    (hv : lookupKey M k = some v) (hp : isPassthrough line = false)
    (hl : lookupKey M (keyOf line) = none) :
    keyMatches k line = false := by
  unfold keyMatches parsedKey
  rw [hp]
  simp
  intro he
  rw [he] at hl
  rw [hl] at hv
  exact Option.noConfusion hv

theorem mergeExisting_filter_key {M : List (Line × Line)} {k v : Line}
    (hclean : ∀ p ∈ M, pyStrip p.1 = p.1 ∧ '=' ∉ p.1 ∧ p.1.head? ≠ some '#')
    (hv : lookupKey M k = some v) (T : List Line) :
    ((mergeExisting M T).1).filter (keyMatches k) =
      List.replicate (countKey T k) (k ++ '=' :: v) := by
  induction T with
  | nil => rfl
  | cons line rest ih =>
    rw [mergeExisting_cons, countKey_cons]
    by_cases hp : isPassthrough line
    · have hm : keyMatches k line = false := by
        unfold keyMatches parsedKey
        rw [hp]
        simp
      rw [mergeStep_passthrough hp]
      simp only [List.filter_cons, hm, if_false, Bool.false_eq_true, hm]
      simp [hm, ih]
    · have hp' : isPassthrough line = false := by simpa using hp
      cases hl : lookupKey M (keyOf line) with
      | some w =>
        rw [mergeStep_replace hp' hl]
        have hkm : keyMatches k (keyOf line ++ '=' :: w) = decide (keyOf line = k) :=
          keyMatches_emit hclean hl
        have hkml : keyMatches k line = decide (keyOf line = k) := by
          unfold keyMatches parsedKey
          rw [hp']
          simp
        by_cases he : keyOf line = k
        · subst he
          rw [hl] at hv
          simp only [Option.some.injEq] at hv
          subst hv
          simp only [List.filter_cons, hkm, hkml]
          simp [ih, List.replicate_succ, Nat.add_comm]
        · simp only [List.filter_cons, hkm, hkml]
          simp [he, ih]
      | none =>
        have hm := keyMatches_of_lookup_none hv hp' hl
        rw [mergeStep_keep hp' hl]
        simp only [List.filter_cons, hm, if_false]
        simp [hm, ih]

theorem mem_applied_iff {M : List (Line × Line)} {k v : Line}
    (hv : lookupKey M k = some v) (T : List Line) :
    k ∈ (mergeExisting M T).2 ↔ 0 < countKey T k := by
  induction T with
  | nil => simp [mergeExisting, countKey]
  | cons line rest ih =>
    rw [mergeExisting_cons, countKey_cons]
    by_cases hp : isPassthrough line
    · have hm : keyMatches k line = false := by
        unfold keyMatches parsedKey
        rw [hp]
        simp
      rw [mergeStep_passthrough hp]
      simpa [hm] using ih
    · have hp' : isPassthrough line = false := by simpa using hp
      cases hl : lookupKey M (keyOf line) with
      | some w =>
        rw [mergeStep_replace hp' hl]
        have hkml : keyMatches k line = decide (keyOf line = k) := by
          unfold keyMatches parsedKey
          rw [hp']
          simp
        by_cases he : keyOf line = k
        · simp [hkml, he]
        · have hne : ¬k = keyOf line := fun hx => he hx.symm
          simpa [hkml, he, hne] using ih
      | none =>
        have hm := keyMatches_of_lookup_none hv hp' hl
        rw [mergeStep_keep hp' hl]
        simpa [hm] using ih

/-! Boundary-freeness and stability of the merged lines. -/

theorem cleanConfig_spec {M : List (Line × Line)} (h : cleanConfig M = true) :
    ∀ p ∈ M, pyStrip p.1 = p.1 ∧ '=' ∉ p.1 ∧ p.1.head? ≠ some '#' ∧
      (∀ c ∈ p.1, isLineBoundary c = false) ∧ (∀ c ∈ p.2, isLineBoundary c = false) := by
  intro p hp
  unfold cleanConfig at h
  rw [List.all_eq_true] at h
  have hx := h p hp
  simp only [Bool.and_eq_true, decide_eq_true_eq, Bool.not_eq_true',
    decide_eq_false_iff_not, List.all_eq_true, Bool.not_eq_true] at hx
  exact ⟨hx.1.1.1.1, hx.1.1.1.2, hx.1.1.2, fun c hc => by simpa using hx.1.2 c hc,
    fun c hc => by simpa using hx.2 c hc⟩

theorem cleanConfig_keys {M : List (Line × Line)} (h : cleanConfig M = true) :
    ∀ p ∈ M, pyStrip p.1 = p.1 ∧ '=' ∉ p.1 ∧ p.1.head? ≠ some '#' :=
  fun p hp => ⟨(cleanConfig_spec h p hp).1, (cleanConfig_spec h p hp).2.1,
    (cleanConfig_spec h p hp).2.2.1⟩

theorem mem_keyOf {line : Line} {c : Char} (h : c ∈ keyOf line) : c ∈ line :=
  mem_takeWhile_mem (mem_pyStrip h)

theorem mergeExisting_out_free {M : List (Line × Line)} {T : List Line}
    (hfM : ∀ p ∈ M, ∀ c ∈ p.2, isLineBoundary c = false)
    (hfT : ∀ l ∈ T, ∀ c ∈ l, isLineBoundary c = false) :
    ∀ l ∈ (mergeExisting M T).1, ∀ c ∈ l, isLineBoundary c = false := by
  induction T with
  | nil => simp [mergeExisting]
  | cons line rest ih =>
    rw [mergeExisting_cons]
    intro l hl
    rcases List.mem_cons.mp hl with rfl | hl
    · by_cases hp : isPassthrough line
      · rw [mergeStep_passthrough hp]
        exact hfT line (by simp)
      · have hp' : isPassthrough line = false := by simpa using hp
        cases hv : lookupKey M (keyOf line) with
        | some v =>
          rw [mergeStep_replace hp' hv]
          intro c hc
          rcases List.mem_append.mp hc with hc | hc
          · exact hfT line (by simp) c (mem_keyOf hc)
          · rcases List.mem_cons.mp hc with rfl | hc
            · decide
            · exact hfM _ (lookupKey_mem hv) c hc
        | none =>
          rw [mergeStep_keep hp' hv]
          exact hfT line (by simp)
    · exact ih (fun m hm => hfT m (by simp [hm])) l hl

theorem appendMissing_free {M : List (Line × Line)} {applied : List Line}
    (hfM : ∀ p ∈ M, (∀ c ∈ p.1, isLineBoundary c = false) ∧
      (∀ c ∈ p.2, isLineBoundary c = false)) :
    ∀ l ∈ appendMissing applied M, ∀ c ∈ l, isLineBoundary c = false := by
  intro l hl
  obtain ⟨k, v, rfl, hv, _⟩ := appendMissing_forms l hl
  have hm := hfM _ (lookupKey_mem hv)
  intro c hc
  rcases List.mem_append.mp hc with hc | hc
  · exact hm.1 c hc
  · rcases List.mem_cons.mp hc with rfl | hc
    · decide
    · exact hm.2 c hc

theorem mergeExisting_eq_self {M : List (Line × Line)} {U : List Line}
    (h : ∀ l ∈ U, (mergeStep M l).1 = l) : (mergeExisting M U).1 = U := by
  induction U with
  | nil => rfl
  | cons line rest ih =>
    rw [mergeExisting_cons]
    rw [h line (by simp), ih (fun l hl => h l (by simp [hl]))]

theorem mergeLines_stable {M : List (Line × Line)}
    (hclean : ∀ p ∈ M, pyStrip p.1 = p.1 ∧ '=' ∉ p.1 ∧ p.1.head? ≠ some '#')
    (T : List Line) :
    mergeLines (mergeLines T M) M = mergeLines T M := by
  have hstab : ∀ l ∈ mergeLines T M, (mergeStep M l).1 = l := by
    intro l hl
    rcases List.mem_append.mp hl with hl | hl
    · exact mergeExisting_out_stable M T l hl
    · obtain ⟨k, v, rfl, hv, _⟩ := appendMissing_forms l hl
      obtain ⟨h1, h2, h3⟩ := hclean _ (lookupKey_mem hv)
      rw [mergeStep_emit h1 h2 h3 hv]
  have happlied : ∀ p ∈ M, p.1 ∈ (mergeExisting M (mergeLines T M)).2 := by
    intro p hp
    obtain ⟨w, hw⟩ := lookup_isSome_of_mem (show (p.1, p.2) ∈ M by simpa using hp)
    obtain ⟨h1, h2, h3⟩ := hclean p hp
    have hstep : (mergeStep M (p.1 ++ '=' :: w)).2 = some p.1 := by
      rw [mergeStep_emit h1 h2 h3 hw]
    by_cases hA : p.1 ∈ (mergeExisting M T).2
    · obtain ⟨v, hv, hmem⟩ := mem_out_of_applied hA
      rw [hw] at hv
      simp only [Option.some.injEq] at hv
      subst hv
      exact applied_of_mem (List.mem_append_left _ hmem) hstep
    · have hmem := appendMissing_cover hw (mergeExisting M T).2 hA
      exact applied_of_mem (List.mem_append_right _ hmem) hstep
  show (mergeExisting M (mergeLines T M)).1 ++ _ = _
  rw [mergeExisting_eq_self hstab]
  rw [appendMissing_eq_nil happlied]
  exact List.append_nil _

/-! ## Claim C1: idempotence of the properties merge -/

/-- C1, counterexample: merging is not idempotent for every override mapping.
With the single override key `#k`, the first merge appends the line `#k=v`;
the second merge strips it, sees a leading `#`, treats it as a comment, finds
the key `#k` unapplied, and appends `#k=v` a second time. -/
theorem customizeServerProperties_not_idem :
    customizeServerProperties
        (customizeServerProperties [] [("#k".data, "v".data)])
        [("#k".data, "v".data)] ≠
      customizeServerProperties [] [("#k".data, "v".data)] := by
  decide

/-- C1 (amended): merging an override mapping `M` into an existing
server.properties text `T` is idempotent —
`merge(merge(T, M), M) = merge(T, M)` — provided `M` is clean: every key
equals its own strip, contains no `=`, does not start with `#`, and neither
keys nor values contain a line-boundary character. -/
theorem customizeServerProperties_idem (T : Line) (M : List (Line × Line))
    (hc : cleanConfig M = true) :
    customizeServerProperties (customizeServerProperties T M) M =
      customizeServerProperties T M := by
  have hclean := cleanConfig_keys hc
  have hspec := cleanConfig_spec hc
  by_cases hUe : mergeLines (pySplitlines T) M = []
  · have hpair : (mergeExisting M (pySplitlines T)).1 = [] ∧
        appendMissing (mergeExisting M (pySplitlines T)).2 M = [] := by
      unfold mergeLines at hUe
      exact List.append_eq_nil.mp hUe
    have hM : M = [] := by
      cases hMc : M with
      | nil => rfl
      | cons p rest =>
        have hT' : pySplitlines T = [] := by
          have hlen := mergeExisting_length M (pySplitlines T)
          rw [hpair.1] at hlen
          exact List.length_eq_zero.mp hlen.symm
        have hsub := eq_nil_appendMissing hpair.2 p (by rw [hMc]; simp)
        rw [hT'] at hsub
        simp [mergeExisting] at hsub
    have h1 : customizeServerProperties T M = ['\n'] := by
      unfold customizeServerProperties
      rw [hUe]
      rfl
    rw [h1, hM]
    decide
  · have hfreeU : ∀ l ∈ mergeLines (pySplitlines T) M,
        ∀ c ∈ l, isLineBoundary c = false := by
      intro l hl
      rcases List.mem_append.mp hl with hl | hl
      · exact mergeExisting_out_free (fun p hp => (hspec p hp).2.2.2.2)
          (fun m hm => pySplitlines_boundary_free m hm) l hl
      · exact appendMissing_free
          (fun p hp => ⟨(hspec p hp).2.2.2.1, (hspec p hp).2.2.2.2⟩) l hl
    have hround : pySplitlines (customizeServerProperties T M) =
        mergeLines (pySplitlines T) M := by
      unfold customizeServerProperties
      exact pySplitlines_joinLines hUe hfreeU
    show joinLines (mergeLines (pySplitlines (customizeServerProperties T M)) M) ++
        ['\n'] = _
    rw [hround, mergeLines_stable hclean]
    rfl

/-- C1, witness: the amended idempotence theorem applied to a concrete text
and a concrete clean override mapping. -/
theorem customizeServerProperties_idem_witness :
    cleanConfig [("motd".data, "Hello".data), ("b".data, "4".data)] = true ∧
    customizeServerProperties
        (customizeServerProperties "a=1\n#c\nb = 2".data
          [("motd".data, "Hello".data), ("b".data, "4".data)])
        [("motd".data, "Hello".data), ("b".data, "4".data)] =
      customizeServerProperties "a=1\n#c\nb = 2".data
        [("motd".data, "Hello".data), ("b".data, "4".data)] :=
  ⟨by decide, customizeServerProperties_idem _ _ (by decide)⟩

/-! ## Claim C2: each override key appears exactly once after the merge -/

/-- C2, counterexample: the merge replaces the value of every matching
existing line, not only the first, so a key duplicated in the existing text
appears more than once in the output: with lines `a=1`, `a=2` and the
override `a=3`, the merged lines are `a=3`, `a=3` and the key `a` occurs
twice rather than exactly once. -/
theorem mergeLines_duplicate_key :
    mergeLines ["a=1".data, "a=2".data] [("a".data, "3".data)] =
        ["a=3".data, "a=3".data] ∧
      countKey (mergeLines ["a=1".data, "a=2".data] [("a".data, "3".data)])
        "a".data = 2 := by
  decide

/-- C2 (amended): when every key of the override mapping `M` is its own
strip, contains no `=` and does not start with `#`, and the existing lines
`T` contain at most one key-value line for the override key `k`, the merged
lines contain exactly one key-value line for `k`, namely `k=v` with `v` the
override value: the merge rewrites every matching line (of which there is at
most one) and appends `k=v` when no line matches. -/
theorem mergeLines_key_exactly_once {T : List Line} {M : List (Line × Line)}
    {k v : Line}
    (hclean : ∀ p ∈ M, pyStrip p.1 = p.1 ∧ '=' ∉ p.1 ∧ p.1.head? ≠ some '#')
    (hv : lookupKey M k = some v) (hcount : countKey T k ≤ 1) :
    (mergeLines T M).filter (keyMatches k) = [k ++ '=' :: v] := by
  unfold mergeLines
  rw [List.filter_append]
  rw [mergeExisting_filter_key hclean hv]
  rcases Nat.le_one_iff_eq_zero_or_eq_one.mp hcount with h0 | h1
  · rw [h0]
    have hnap : k ∉ (mergeExisting M T).2 := by
      intro hmem
      have := (mem_applied_iff hv T).mp hmem
      omega
    rw [appendMissing_filter_cons hclean hv _ hnap]
    rfl
  · rw [h1]
    have hap : k ∈ (mergeExisting M T).2 := (mem_applied_iff hv T).mpr (by omega)
    rw [appendMissing_filter_nil hclean hap]
    rfl

/-- C2, witness: the amended theorem applied to concrete lines and a
concrete override mapping, for a key that is absent (`b`, appended once). -/
theorem mergeLines_key_exactly_once_witness :
    (mergeLines ["a=1".data, "#c".data]
        [("a".data, "3".data), ("b".data, "4".data)]).filter
        (keyMatches "b".data) =
      ["b".data ++ '=' :: "4".data] :=
  mergeLines_key_exactly_once (by decide) (by decide) (by decide)

/-! ## Claim C3: pass-through lines survive the merge in order -/

theorem pySplitlines_cons_ne_nil (c : Char) (s : Line) :
    pySplitlines (c :: s) ≠ [] := by
  cases s with
  | nil =>
    rw [pySplitlines]
    split <;> simp
  | cons d t =>
    rw [pySplitlines]
    split
    · simp
    · split
      · simp
      · split <;> simp

theorem pySplitlines_split_aux :
    ∀ n (A : Line), A.length ≤ n → ∀ s,
      pySplitlines (A ++ '\n' :: s) =
        pySplitlines (A ++ ['\n']) ++ pySplitlines s := by
  intro n
  induction n with
  | zero =>
    intro A hA s
    rw [List.length_eq_zero.mp (Nat.le_zero.mp hA)]
    rw [List.nil_append, List.nil_append]
    rw [pySplitlines_cons_boundary (by simp [isLineBoundary]) (by simp)]
    rfl
  | succ n ih =>
    intro A hA s
    cases A with
    | nil =>
      rw [List.nil_append, List.nil_append]
      rw [pySplitlines_cons_boundary (by simp [isLineBoundary]) (by simp)]
      rfl
    | cons c A' =>
      cases A' with
      | nil =>
        by_cases hc : c = '\x0d'
        · subst hc
          show pySplitlines ('\x0d' :: '\n' :: s) = _
          rw [pySplitlines_crlf]
          rfl
        · by_cases hb : isLineBoundary c
          · show pySplitlines (c :: '\n' :: s) =
              pySplitlines (c :: ['\n']) ++ pySplitlines s
            rw [pySplitlines_cons_boundary hb (by simp [hc])]
            rw [pySplitlines_cons_boundary (by simp [isLineBoundary]) (by simp)]
            rw [pySplitlines_cons_boundary hb (by simp [hc])]
            rfl
          · have hb' : isLineBoundary c = false := by simpa using hb
            show pySplitlines (c :: '\n' :: s) =
              pySplitlines (c :: ['\n']) ++ pySplitlines s
            rw [pySplitlines_cons_nonboundary hb']
            rw [pySplitlines_cons_boundary (by simp [isLineBoundary]) (by simp)]
            rw [pySplitlines_cons_nonboundary hb']
            rfl
      | cons d A'' =>
        have hlen : (d :: A'').length ≤ n := by
          simp at hA ⊢
          omega
        by_cases hcd : c = '\x0d' ∧ d = '\n'
        · obtain ⟨rfl, rfl⟩ := hcd
          show pySplitlines ('\x0d' :: '\n' :: (A'' ++ '\n' :: s)) =
            pySplitlines ('\x0d' :: '\n' :: (A'' ++ ['\n'])) ++ pySplitlines s
          rw [pySplitlines_crlf, pySplitlines_crlf]
          have hA'' : A''.length ≤ n := by
            simp at hlen
            omega
          rw [ih A'' hA'' s]
          rfl
        · have hnot1 : ¬(c = '\x0d' ∧ ((d :: A'') ++ '\n' :: s).head? = some '\n') := by
            intro hx
            exact hcd ⟨hx.1, by simpa using hx.2⟩
          have hnot2 : ¬(c = '\x0d' ∧ ((d :: A'') ++ ['\n']).head? = some '\n') := by
            intro hx
            exact hcd ⟨hx.1, by simpa using hx.2⟩
          by_cases hb : isLineBoundary c
          · show pySplitlines (c :: ((d :: A'') ++ '\n' :: s)) =
              pySplitlines (c :: ((d :: A'') ++ ['\n'])) ++ pySplitlines s
            rw [pySplitlines_cons_boundary hb hnot1]
            rw [pySplitlines_cons_boundary hb hnot2]
            rw [ih (d :: A'') hlen s]
            rfl
          · have hb' : isLineBoundary c = false := by simpa using hb
            show pySplitlines (c :: ((d :: A'') ++ '\n' :: s)) =
              pySplitlines (c :: ((d :: A'') ++ ['\n'])) ++ pySplitlines s
            rw [pySplitlines_cons_nonboundary hb']
            rw [pySplitlines_cons_nonboundary hb']
            rw [ih (d :: A'') hlen s]
            cases hm : pySplitlines ((d :: A'') ++ ['\n']) with
            | nil => exact absurd hm (pySplitlines_cons_ne_nil d (A'' ++ ['\n']))
            | cons m0 ms =>
              rfl

theorem pySplitlines_split_at_newline (A s : Line) :
    pySplitlines (A ++ '\n' :: s) =
      pySplitlines (A ++ ['\n']) ++ pySplitlines s :=
  pySplitlines_split_aux A.length A Nat.le.refl s

theorem pySplitlines_joinLines_decompose {U : List Line} (hU : U ≠ []) :
    pySplitlines (joinLines U ++ ['\n']) =
      (U.map fun l => pySplitlines (l ++ ['\n'])).join := by
  induction U with
  | nil => exact absurd rfl hU
  | cons l U ih =>
    cases U with
    | nil => simp [joinLines]
    | cons l2 U2 =>
      show pySplitlines ((l ++ '\n' :: joinLines (l2 :: U2)) ++ ['\n']) = _
      rw [List.append_assoc, List.cons_append]
      rw [pySplitlines_split_at_newline]
      rw [ih (by simp)]
      simp

theorem sublist_join_of_map {S U : List Line} (g : Line → List Line)
    (hS : S.Sublist U) (hg : ∀ l ∈ S, g l = [l]) :
    S.Sublist (U.map g).join := by
  induction hS with
  | slnil => simp
  | cons u hS ih =>
    rw [List.map_cons, List.join]
    exact (ih hg).trans (List.sublist_append_right _ _)
  | cons₂ u hS ih =>
    rw [List.map_cons, List.join]
    rw [hg u (by simp)]
    exact (ih (fun l hl => hg l (by simp [hl]))).cons₂ u

/-- C3: every line of the existing text `T` that is blank, starts with `#`
after stripping, or contains no `=`, appears unchanged and in the same
relative order in the merged output: the pass-through lines of `T` form a
sublist of the lines of the merged text, and at the line level the merged
lines' pass-through sublist is exactly the pass-through lines of `T`
followed only by appended override lines. -/
theorem passthrough_lines_preserved (T : Line) (M : List (Line × Line)) :
    ((pySplitlines T).filter isPassthrough).Sublist
        (pySplitlines (customizeServerProperties T M)) ∧
      (mergeLines (pySplitlines T) M).filter isPassthrough =
        (pySplitlines T).filter isPassthrough ++
          (appendMissing (mergeExisting M (pySplitlines T)).2 M).filter
            isPassthrough := by
  have hfilter : (mergeLines (pySplitlines T) M).filter isPassthrough =
      (pySplitlines T).filter isPassthrough ++
        (appendMissing (mergeExisting M (pySplitlines T)).2 M).filter
          isPassthrough := by
    unfold mergeLines
    rw [List.filter_append, mergeExisting_filter_passthrough]
  refine ⟨?_, hfilter⟩
  by_cases hUe : mergeLines (pySplitlines T) M = []
  · have hpair : (mergeExisting M (pySplitlines T)).1 = [] ∧
        appendMissing (mergeExisting M (pySplitlines T)).2 M = [] := by
      unfold mergeLines at hUe
      exact List.append_eq_nil.mp hUe
    have hT' : pySplitlines T = [] := by
      have hlen := mergeExisting_length M (pySplitlines T)
      rw [hpair.1] at hlen
      exact List.length_eq_zero.mp hlen.symm
    rw [hT']
    simp
  · show ((pySplitlines T).filter isPassthrough).Sublist
      (pySplitlines (joinLines (mergeLines (pySplitlines T) M) ++ ['\n']))
    rw [pySplitlines_joinLines_decompose hUe]
    apply sublist_join_of_map
    · have h1 : ((pySplitlines T).filter isPassthrough).Sublist
          ((mergeLines (pySplitlines T) M).filter isPassthrough) := by
        rw [hfilter]
        exact List.sublist_append_left _ _
      exact h1.trans (List.filter_sublist _)
    · intro l hl
      have hlT : l ∈ pySplitlines T := List.mem_of_mem_filter hl
      have hfree := pySplitlines_boundary_free l hlT
      have h2 := pySplitlines_append_free hfree []
      rw [h2]
      rfl

/-! ## Claim C4: the archive installer's PK pre-check and error kinds -/

/-- C4: for every byte sequence that does not start with the ZIP `PK`
signature, `extractZipArchive` fails with the `InvalidModpackFormatError`
kind and performs no filesystem write, whatever the zip library would have
done; a parse failure after the pre-check (`BadZipFile`) also maps to
`InvalidModpackFormatError` with no writes, while an `OSError` during
extraction maps to the distinct `ModpackExtractionError` kind. -/
theorem extractZipArchive_spec :
    ∀ (zipSem : List Nat → ZipOutcome) (data : List Nat),
      (data.take 2 ≠ [0x50, 0x4b] →
        extractZipArchive zipSem data =
          (Except.error ArchiveError.invalidModpackFormat, [])) ∧
      (zipSem data = ZipOutcome.badZip →
        extractZipArchive zipSem data =
          (Except.error ArchiveError.invalidModpackFormat, [])) ∧
      (∀ ws, ¬(data.length < 4 ∨ data.take 2 ≠ [0x50, 0x4b]) →
        zipSem data = ZipOutcome.osError ws →
        extractZipArchive zipSem data =
          (Except.error ArchiveError.modpackExtraction, ws)) ∧
      ArchiveError.invalidModpackFormat ≠ ArchiveError.modpackExtraction := by
  intro zipSem data
  refine ⟨?_, ?_, ?_, by decide⟩
  · intro h
    unfold extractZipArchive
    rw [if_pos (Or.inr h)]
  · intro h
    unfold extractZipArchive
    by_cases hc : data.length < 4 ∨ data.take 2 ≠ [0x50, 0x4b]
    · rw [if_pos hc]
    · rw [if_neg hc, h]
  · intro ws h hz
    unfold extractZipArchive
    rw [if_neg h, hz]

/-- C4, witness: the theorem applied to concrete non-PK bytes (rejected
before the zip library is consulted) and to a concrete post-parse OS
failure. -/
theorem extractZipArchive_spec_witness :
    extractZipArchive (fun _ => ZipOutcome.parsed ["w"]) [0, 1, 2, 3] =
        (Except.error ArchiveError.invalidModpackFormat, []) ∧
      extractZipArchive (fun _ => ZipOutcome.osError ["partial"])
          [0x50, 0x4b, 3, 4] =
        (Except.error ArchiveError.modpackExtraction, ["partial"]) :=
  ⟨(extractZipArchive_spec _ _).1 (by decide),
   (extractZipArchive_spec _ _).2.2.1 ["partial"] (by decide) rfl⟩

/-! ## Claim C6: URL extraction from a decoded listing -/

/-- C6: decoding `data = [obj with downloadUrl "http://x/y.zip"]` and
extracting yields exactly that URL; decoding `data = []` succeeds and
extraction yields `none` (no download URL available) rather than an
API-client error; and in general extraction on a nonempty listing returns
the first entry's nullable download URL. -/
theorem extractDownloadUrl_spec :
    (parseGetFilesResponse (.obj
        [("data", .arr [.obj [("downloadUrl", .str "http://x/y.zip")]]),
         ("pagination", .obj [("index", .num 0), ("pageSize", .num 1),
           ("resultCount", .num 1), ("totalCount", .num 1)])])).map
        extractDownloadUrl = .ok (some "http://x/y.zip") ∧
    (parseGetFilesResponse (.obj [("data", .arr [])])).map extractDownloadUrl =
        .ok none ∧
    ∀ (fd : FileData) (rest : List FileData) (pg : Option Pagination),
      extractDownloadUrl { data := fd :: rest, pagination := pg } =
        fd.downloadUrl := by
  refine ⟨by rfl, by rfl, ?_⟩
  intro fd rest pg
  rfl

/-! ## Claim C8: HTTP failure wrapping across the fetch operations -/

/-- C8, counterexample: not every fetch operation wraps failures.
`manual_module.downloadServerPack` propagates a transport failure as the
raw `requests` exception, and `vanilla_module.fetchServerJarUrl` never
treats an HTTP 500 as a request failure: it scrapes the error body and
raises `ExtractionError`, with no URL or status code attached. -/
theorem fetch_not_wrapped :
    downloadServerPackManual (fun _ => HttpOutcome.netError "connection reset")
        "http://pack" =
      .error (.rawRequestException "connection reset") ∧
    fetchServerJarUrlVanilla (fun _ => HttpOutcome.resp 500 "oops") "1.20.1" =
      .error (.extraction "Unable to locate server.jar URL in download page") := by
  exact ⟨rfl, by rfl⟩

/-- C8 (amended): the environment-variant fetchers `http_client.httpGet`
and `files.downloadFile` treat every HTTP status of at least 400 as an
application-level request failure carrying the URL and status code and wrap
every network-level failure into the same error kind carrying the cause;
the CLI-variant fetchers do not: `vanilla_module.fetchServerJarUrl` and
`manual_module.downloadServerPack` propagate network-level failures as raw
transport exceptions, and `downloadServerPack` accepts any status. -/
theorem fetch_wrapping_spec :
    (∀ net url c, net url = HttpOutcome.netError c →
      httpGet net url = .error (.httpRequest url (.network c))) ∧
    (∀ net url s b, net url = HttpOutcome.resp s b → 400 ≤ s →
      httpGet net url = .error (.httpRequest url (.httpStatus s))) ∧
    (∀ net url c, net url = HttpOutcome.netError c →
      downloadFile net url = .error (.download url (.network c))) ∧
    (∀ net url s b, net url = HttpOutcome.resp s b → 400 ≤ s →
      downloadFile net url = .error (.download url (.httpStatus s))) ∧
    (∀ net version c, net (mcVersionsUrl ++ version) = HttpOutcome.netError c →
      fetchServerJarUrlVanilla net version = .error (.rawRequestException c)) ∧
    (∀ net url c, net url = HttpOutcome.netError c →
      downloadServerPackManual net url = .error (.rawRequestException c)) ∧
    (∀ net url s b, net url = HttpOutcome.resp s b →
      downloadServerPackManual net url = .ok b) := by
  refine ⟨?_, ?_, ?_, ?_, ?_, ?_, ?_⟩
  · intro net url c h
    unfold httpGet
    rw [h]
  · intro net url s b h hs
    unfold httpGet
    rw [h]
    simp [hs]
  · intro net url c h
    unfold downloadFile
    rw [h]
  · intro net url s b h hs
    unfold downloadFile
    rw [h]
    simp [hs]
  · intro net version c h
    unfold fetchServerJarUrlVanilla
    rw [h]
  · intro net url c h
    unfold downloadServerPackManual
    rw [h]
  · intro net url s b h
    unfold downloadServerPackManual
    rw [h]

/-- C8, witness: the wrapping theorem applied to a concrete DNS failure and
a concrete 404 response. -/
theorem fetch_wrapping_spec_witness :
    httpGet (fun _ => HttpOutcome.netError "dns failure") "http://a" =
        .error (.httpRequest "http://a" (.network "dns failure")) ∧
      downloadFile (fun _ => HttpOutcome.resp 404 "nope") "http://b" =
        .error (.download "http://b" (.httpStatus 404)) :=
  ⟨fetch_wrapping_spec.1 _ _ _ rfl,
   fetch_wrapping_spec.2.2.2.1 _ _ _ _ rfl (by decide)⟩

/-! ## Claim C5: failure modes of the file-listing decoder -/

theorem exceptBind_ok {ε α β : Type} (a : α) (f : α → Except ε β) :
    (Except.ok a >>= f) = f a := rfl

theorem exceptBind_err {ε α β : Type} (e : ε) (f : α → Except ε β) :
    ((Except.error e : Except ε α) >>= f) = Except.error e := rfl

theorem pyIter_error {j : Json} {e : PyErr} (h : pyIter j = .error e) :
    e = .typeError := by
  cases j <;> simp [pyIter] at h <;> exact h.symm

theorem pyIter_ok_of_iterable {j : Json} (hi : iterableJson j = true) :
    ∃ xs, pyIter j = .ok xs := by
  cases j <;> simp [iterableJson] at hi <;> exact ⟨_, rfl⟩

theorem mapList_error {α : Type} {items : Json} {f : List (String × Json) → α}
    {e : PyErr} (h : mapList items f = .error e) : e = .typeError := by
  unfold mapList at h
  cases hi : pyIter items with
  | error e1 =>
    rw [hi, exceptBind_err] at h
    cases h
    exact pyIter_error hi
  | ok xs =>
    rw [hi, exceptBind_ok] at h
    cases h

theorem mapList_ok_of_iterable {α : Type} {items : Json}
    (hi : iterableJson items = true) (f : List (String × Json) → α) :
    ∃ l, mapList items f = .ok l := by
  obtain ⟨xs, hxs⟩ := pyIter_ok_of_iterable hi
  refine ⟨(xs.filterMap asObjRecord).map f, ?_⟩
  unfold mapList
  rw [hxs, exceptBind_ok]
  rfl

theorem FileData.fromDict_error {d : List (String × Json)} {e : PyErr}
    (h : FileData.fromDict d = .error e) : e = .typeError := by
  unfold FileData.fromDict at h
  cases h1 : mapList (jgetD d "hashes" (.arr [])) FileHash.fromDict with
  | error e1 =>
    rw [h1, exceptBind_err] at h
    cases h
    exact mapList_error h1
  | ok v1 =>
    rw [h1, exceptBind_ok] at h
    cases h2 : pyIter (jgetD d "gameVersions" (.arr [])) with
    | error e2 =>
      rw [h2, exceptBind_err] at h
      cases h
      exact pyIter_error h2
    | ok v2 =>
      rw [h2, exceptBind_ok] at h
      cases h3 : mapList (jgetD d "sortableGameVersions" (.arr []))
          SortableGameVersion.fromDict with
      | error e3 =>
        rw [h3, exceptBind_err] at h
        cases h
        exact mapList_error h3
      | ok v3 =>
        rw [h3, exceptBind_ok] at h
        cases h4 : mapList (jgetD d "dependencies" (.arr []))
            FileDependency.fromDict with
        | error e4 =>
          rw [h4, exceptBind_err] at h
          cases h
          exact mapList_error h4
        | ok v4 =>
          rw [h4, exceptBind_ok] at h
          cases h5 : mapList (jgetD d "modules" (.arr [])) FileModule.fromDict with
          | error e5 =>
            rw [h5, exceptBind_err] at h
            cases h
            exact mapList_error h5
          | ok v5 =>
            rw [h5, exceptBind_ok] at h
            cases h

theorem FileData.fromDict_ok {d : List (String × Json)}
    (hd : listFieldsIterable d = true) : ∃ fd, FileData.fromDict d = .ok fd := by
  unfold listFieldsIterable at hd
  simp only [Bool.and_eq_true] at hd
  obtain ⟨⟨⟨⟨i1, i2⟩, i3⟩, i4⟩, i5⟩ := hd
  obtain ⟨l1, h1⟩ := mapList_ok_of_iterable i1 FileHash.fromDict
  obtain ⟨l2, h2⟩ := pyIter_ok_of_iterable i2
  obtain ⟨l3, h3⟩ := mapList_ok_of_iterable i3 SortableGameVersion.fromDict
  obtain ⟨l4, h4⟩ := mapList_ok_of_iterable i4 FileDependency.fromDict
  obtain ⟨l5, h5⟩ := mapList_ok_of_iterable i5 FileModule.fromDict
  unfold FileData.fromDict
  rw [h1, exceptBind_ok, h2, exceptBind_ok, h3, exceptBind_ok, h4,
    exceptBind_ok, h5, exceptBind_ok]
  exact ⟨_, rfl⟩

theorem mapM_error {α β : Type} {f : α → Except PyErr β} :
    ∀ {l : List α} {e : PyErr}, l.mapM f = .error e → ∃ x ∈ l, f x = .error e := by
  intro l
  induction l with
  | nil =>
    intro e h
    rw [List.mapM_nil] at h
    cases h
  | cons x rest ih =>
    intro e h
    rw [List.mapM_cons] at h
    cases hx : f x with
    | error ex =>
      rw [hx, exceptBind_err] at h
      cases h
      exact ⟨x, by simp, hx⟩
    | ok bx =>
      rw [hx, exceptBind_ok] at h
      cases hr : rest.mapM f with
      | error er =>
        rw [hr, exceptBind_err] at h
        cases h
        obtain ⟨y, hy, he⟩ := ih hr
        exact ⟨y, by simp [hy], he⟩
      | ok br =>
        rw [hr, exceptBind_ok] at h
        cases h

/-- C5, counterexample: the decoder can fail on a mistyped individual field
of a file record: a numeric `hashes` field is not iterable, so the record
decoder raises a `TypeError` (not a `CurseForgeApiError`) even though the
envelope is structurally fine. -/
theorem parseGetFilesResponse_field_typeError :
    parseGetFilesResponse (.obj [("data", .arr [.obj [("hashes", .num 5)]])]) =
        .error .typeError ∧
      envelopeOk (.obj [("data", .arr [.obj [("hashes", .num 5)]])]) = true := by
  exact ⟨rfl, rfl⟩

/-- C5 (amended): the decoder raises `CurseForgeApiError` exactly for a
structurally wrong envelope (payload not an object, or a present `data`
field that is not an array); it never fails on a malformed, mistyped or
missing scalar field — a record whose list-typed fields (`hashes`,
`gameVersions`, `sortableGameVersions`, `dependencies`, `modules`) are
absent or iterable always decodes — and a record with every field missing
decodes to the documented defaults (0 for numbers, false for the boolean,
the empty string for strings, `None` for nullable fields); however a
list-typed field holding a non-iterable value raises a `TypeError`, which
is not the API error. -/
theorem parseGetFilesResponse_spec :
    (∀ payload,
      (∃ m, parseGetFilesResponse payload = .error (.curseForgeApi m)) ↔
        envelopeOk payload = false) ∧
    (∀ d, listFieldsIterable d = true → ∃ fd, FileData.fromDict d = .ok fd) ∧
    FileData.fromDict [] = .ok defaultFileData := by
  refine ⟨?_, fun d hd => FileData.fromDict_ok hd, rfl⟩
  intro payload
  cases payload with
  | obj kvs =>
    cases hj : jget kvs "data" with
    | none =>
      have hd : jgetD kvs "data" (.arr []) = .arr [] := by
        unfold jgetD
        rw [hj]
        rfl
      constructor
      · intro ⟨m, hm⟩
        simp only [parseGetFilesResponse] at hm
        rw [hd] at hm
        simp [List.mapM.loop] at hm
        exact Except.noConfusion hm
      · intro hfalse
        simp only [envelopeOk] at hfalse
        rw [hj] at hfalse
        simp at hfalse
    | some v =>
      have hd : jgetD kvs "data" (.arr []) = v := by
        unfold jgetD
        rw [hj]
        rfl
      cases v with
      | arr xs =>
        constructor
        · intro ⟨m, hm⟩
          simp only [parseGetFilesResponse] at hm
          rw [hd] at hm
          have hm2 : ((xs.filterMap asObjRecord).mapM FileData.fromDict >>=
              fun files =>
                pure { data := files,
                       pagination :=
                         match jgetD kvs "pagination" Json.null with
                         | .obj p => some (Pagination.fromDict p)
                         | _ => none } : Except PyErr GetFilesResponse) =
              .error (.curseForgeApi m) := hm
          cases hmm : (xs.filterMap asObjRecord).mapM FileData.fromDict with
          | error e =>
            rw [hmm, exceptBind_err] at hm2
            cases hm2
            obtain ⟨x, _, hx⟩ := mapM_error hmm
            have := FileData.fromDict_error hx
            simp at this
          | ok files =>
            rw [hmm, exceptBind_ok] at hm2
            cases hm2
        · intro hfalse
          simp only [envelopeOk] at hfalse
          rw [hj] at hfalse
          simp at hfalse
      | null =>
        refine ⟨fun _ => ?_, fun _ => ?_⟩
        · simp only [envelopeOk]
          rw [hj]
        · exact ⟨_, by simp only [parseGetFilesResponse]; rw [hd]⟩
      | bool b =>
        refine ⟨fun _ => ?_, fun _ => ?_⟩
        · simp only [envelopeOk]
          rw [hj]
        · exact ⟨_, by simp only [parseGetFilesResponse]; rw [hd]⟩
      | num n =>
        refine ⟨fun _ => ?_, fun _ => ?_⟩
        · simp only [envelopeOk]
          rw [hj]
        · exact ⟨_, by simp only [parseGetFilesResponse]; rw [hd]⟩
      | str s =>
        refine ⟨fun _ => ?_, fun _ => ?_⟩
        · simp only [envelopeOk]
          rw [hj]
        · exact ⟨_, by simp only [parseGetFilesResponse]; rw [hd]⟩
      | obj o =>
        refine ⟨fun _ => ?_, fun _ => ?_⟩
        · simp only [envelopeOk]
          rw [hj]
        · exact ⟨_, by simp only [parseGetFilesResponse]; rw [hd]⟩
  | null => exact ⟨fun _ => rfl, fun _ => ⟨_, rfl⟩⟩
  | bool b => exact ⟨fun _ => rfl, fun _ => ⟨_, rfl⟩⟩
  | num n => exact ⟨fun _ => rfl, fun _ => ⟨_, rfl⟩⟩
  | str s => exact ⟨fun _ => rfl, fun _ => ⟨_, rfl⟩⟩
  | arr xs => exact ⟨fun _ => rfl, fun _ => ⟨_, rfl⟩⟩

/-- C5, witness: the amended theorem applied to a concrete mistyped-envelope
payload and to a concrete record with mistyped scalar fields. -/
theorem parseGetFilesResponse_spec_witness :
    envelopeOk (Json.str "x") = false ∧
      ∃ fd, FileData.fromDict [("id", Json.str "abc"), ("displayName", Json.num 3)] =
        .ok fd :=
  ⟨(parseGetFilesResponse_spec.1 (Json.str "x")).mp ⟨_, rfl⟩,
   parseGetFilesResponse_spec.2.1 _ (by rfl)⟩

/-! ## Claim C10: non-object elements are silently dropped -/

theorem mapM_nil_ok {α β : Type} {f : α → Except PyErr β} {ys : List β}
    (h : ([] : List α).mapM f = .ok ys) : ys = [] := by
  rw [List.mapM_nil] at h
  cases h
  rfl

theorem mapM_cons_ok {α β : Type} {f : α → Except PyErr β} {x : α} {l : List α}
    {ys : List β} (h : (x :: l).mapM f = .ok ys) :
    ∃ y zs, f x = .ok y ∧ l.mapM f = .ok zs ∧ ys = y :: zs := by
  rw [List.mapM_cons] at h
  cases hx : f x with
  | error ex =>
    rw [hx, exceptBind_err] at h
    cases h
  | ok y =>
    rw [hx, exceptBind_ok] at h
    cases hr : l.mapM f with
    | error er =>
      rw [hr, exceptBind_err] at h
      cases h
    | ok zs =>
      rw [hr, exceptBind_ok] at h
      have h2 : Except.ok (y :: zs) = Except.ok ys := h
      cases h2
      exact ⟨y, zs, rfl, rfl, rfl⟩

theorem mapM_ok_length {α β : Type} {f : α → Except PyErr β} :
    ∀ {l : List α} {ys : List β}, l.mapM f = .ok ys → ys.length = l.length := by
  intro l
  induction l with
  | nil =>
    intro ys h
    rw [mapM_nil_ok h]
    rfl
  | cons x rest ih =>
    intro ys h
    obtain ⟨y, zs, _, hr, rfl⟩ := mapM_cons_ok h
    simp [ih hr]

theorem filterMap_asObj_length (xs : List Json) :
    (xs.filterMap asObjRecord).length = xs.countP isJsonObj := by
  induction xs with
  | nil => rfl
  | cons x rest ih =>
    cases x <;> simp [asObjRecord, isJsonObj, List.countP_cons, ih]

theorem filterMap_asObj_head (xs : List Json) :
    (xs.filterMap asObjRecord).head? = firstObjRecord xs := by
  induction xs with
  | nil => rfl
  | cons x rest ih =>
    cases x <;> simp [asObjRecord, firstObjRecord, ih]

theorem FileData.fromDict_fields {d : List (String × Json)} {fd : FileData}
    (h : FileData.fromDict d = .ok fd) :
    (∃ l1, mapList (jgetD d "hashes" (.arr [])) FileHash.fromDict = .ok l1 ∧
      fd.hashes = l1) ∧
    (∃ l4, mapList (jgetD d "dependencies" (.arr [])) FileDependency.fromDict =
      .ok l4 ∧ fd.dependencies = l4) := by
  unfold FileData.fromDict at h
  cases h1 : mapList (jgetD d "hashes" (.arr [])) FileHash.fromDict with
  | error e1 => rw [h1, exceptBind_err] at h; cases h
  | ok v1 =>
    rw [h1, exceptBind_ok] at h
    cases h2 : pyIter (jgetD d "gameVersions" (.arr [])) with
    | error e2 => rw [h2, exceptBind_err] at h; cases h
    | ok v2 =>
      rw [h2, exceptBind_ok] at h
      cases h3 : mapList (jgetD d "sortableGameVersions" (.arr []))
          SortableGameVersion.fromDict with
      | error e3 => rw [h3, exceptBind_err] at h; cases h
      | ok v3 =>
        rw [h3, exceptBind_ok] at h
        cases h4 : mapList (jgetD d "dependencies" (.arr []))
            FileDependency.fromDict with
        | error e4 => rw [h4, exceptBind_err] at h; cases h
        | ok v4 =>
          rw [h4, exceptBind_ok] at h
          cases h5 : mapList (jgetD d "modules" (.arr [])) FileModule.fromDict with
          | error e5 => rw [h5, exceptBind_err] at h; cases h
          | ok v5 =>
            rw [h5, exceptBind_ok] at h
            have h6 : Except.ok (α := FileData) _ = Except.ok fd := h
            cases h6
            exact ⟨⟨v1, rfl, rfl⟩, ⟨v4, rfl, rfl⟩⟩

theorem mapList_arr {α : Type} (hs : List Json) (f : List (String × Json) → α) :
    mapList (.arr hs) f = .ok ((hs.filterMap asObjRecord).map f) := rfl

/-- C10: the decoder silently drops every non-object element of the `data`
array (the decoded listing length is the number of object elements, so it
can be shorter than the raw array), the first decoded entry comes from the
first object-typed element rather than the first raw element, and the same
dropping applies inside the nested list fields `hashes` and
`dependencies` of each record. -/
theorem parseGetFilesResponse_drops_nonobjects :
    (∀ kvs xs r, jget kvs "data" = some (.arr xs) →
      parseGetFilesResponse (.obj kvs) = .ok r →
      r.data.length = xs.countP isJsonObj ∧
      (firstObjRecord xs = none → r.data = []) ∧
      (∀ o, firstObjRecord xs = some o →
        ∃ fd, FileData.fromDict o = .ok fd ∧ r.data.head? = some fd)) ∧
    (∀ d hs fd, jget d "hashes" = some (.arr hs) →
      FileData.fromDict d = .ok fd →
      fd.hashes.length = hs.countP isJsonObj) ∧
    (∀ d ds fd, jget d "dependencies" = some (.arr ds) →
      FileData.fromDict d = .ok fd →
      fd.dependencies.length = ds.countP isJsonObj) := by
  refine ⟨?_, ?_, ?_⟩
  · intro kvs xs r hj h
    have hd : jgetD kvs "data" (.arr []) = .arr xs := by
      unfold jgetD
      rw [hj]
      rfl
    simp only [parseGetFilesResponse] at h
    rw [hd] at h
    have h2 : ((xs.filterMap asObjRecord).mapM FileData.fromDict >>=
        fun files =>
          pure { data := files,
                 pagination :=
                   match jgetD kvs "pagination" Json.null with
                   | .obj p => some (Pagination.fromDict p)
                   | _ => none } : Except PyErr GetFilesResponse) = .ok r := h
    cases hmm : (xs.filterMap asObjRecord).mapM FileData.fromDict with
    | error e =>
      rw [hmm, exceptBind_err] at h2
      cases h2
    | ok files =>
      rw [hmm, exceptBind_ok] at h2
      have h3 : Except.ok (α := GetFilesResponse) _ = Except.ok r := h2
      cases h3
      refine ⟨?_, ?_, ?_⟩
      · show files.length = xs.countP isJsonObj
        rw [mapM_ok_length hmm, filterMap_asObj_length]
      · intro hnone
        show files = []
        have hnil : xs.filterMap asObjRecord = [] := by
          have := filterMap_asObj_head xs
          rw [hnone] at this
          exact List.head?_eq_none_iff.mp this
        rw [hnil] at hmm
        exact mapM_nil_ok hmm
      · intro o ho
        have hhead : (xs.filterMap asObjRecord).head? = some o := by
          rw [filterMap_asObj_head, ho]
        cases hfm : xs.filterMap asObjRecord with
        | nil => rw [hfm] at hhead; cases hhead
        | cons o0 os =>
          rw [hfm] at hhead hmm
          have ho0 : o0 = o := by
            simpa using hhead
          subst ho0
          obtain ⟨y, zs, hy, _, rfl⟩ := mapM_cons_ok hmm
          exact ⟨y, hy, rfl⟩
  · intro d hs fd hj h
    have hd : jgetD d "hashes" (.arr []) = .arr hs := by
      unfold jgetD
      rw [hj]
      rfl
    obtain ⟨⟨l1, hl1, hfd⟩, _⟩ := FileData.fromDict_fields h
    rw [hd, mapList_arr] at hl1
    have : (hs.filterMap asObjRecord).map FileHash.fromDict = l1 := by
      simpa using hl1
    rw [hfd, ← this]
    simp [filterMap_asObj_length]
  · intro d ds fd hj h
    have hd : jgetD d "dependencies" (.arr []) = .arr ds := by
      unfold jgetD
      rw [hj]
      rfl
    obtain ⟨_, ⟨l4, hl4, hfd⟩⟩ := FileData.fromDict_fields h
    rw [hd, mapList_arr] at hl4
    have : (ds.filterMap asObjRecord).map FileDependency.fromDict = l4 := by
      simpa using hl4
    rw [hfd, ← this]
    simp [filterMap_asObj_length]

/-- C10, witness: the claim theorem applied to the concrete payload
`data = [5, object]`: the decoded listing has one entry (the raw array has
two elements) and its first entry decodes from the object element, not the
leading number. -/
theorem parseGetFilesResponse_drops_witness :
    (GetFilesResponse.mk [defaultFileData] none).data.length =
        [Json.num 5, Json.obj []].countP isJsonObj ∧
      ∃ fd, FileData.fromDict [] = .ok fd ∧
        (GetFilesResponse.mk [defaultFileData] none).data.head? = some fd :=
  ⟨(parseGetFilesResponse_drops_nonobjects.1
      [("data", .arr [.num 5, .obj []])] [.num 5, .obj []] _ rfl rfl).1,
   (parseGetFilesResponse_drops_nonobjects.1
      [("data", .arr [.num 5, .obj []])] [.num 5, .obj []] _ rfl rfl).2.2 [] rfl⟩

/-! ## Claim C9: WORKING_DIR validation -/

theorem exceptThrow_eq {ε α : Type} (e : ε) :
    (throw e : Except ε α) = Except.error e := rfl

theorem getEnv_error {env : String → Option String} {n : String} {o : Bool}
    {e : AppError} (h : getEnv env n o = .error e) : ∃ m, e = .envValidation m := by
  cases o with
  | true =>
    cases hv : env n with
    | none => simp [getEnv, hv] at h
    | some v =>
      by_cases hs : pyStrip v.data = [] <;> simp [getEnv, hv, hs] at h
  | false =>
    cases hv : env n with
    | none =>
      simp [getEnv, hv] at h
      exact ⟨_, h.symm⟩
    | some v =>
      by_cases hs : pyStrip v.data = []
      · simp [getEnv, hv, hs] at h
        exact ⟨_, h.symm⟩
      · simp [getEnv, hv, hs] at h

theorem getEnv_opt_ok (env : String → Option String) (n : String) :
    ∃ v, getEnv env n true = .ok v := by
  cases hv : env n with
  | none => exact ⟨none, by simp [getEnv, hv]⟩
  | some v =>
    by_cases hs : pyStrip v.data = []
    · exact ⟨none, by simp [getEnv, hv, hs]⟩
    · exact ⟨some (pyStripS v), by simp [getEnv, hv, hs]⟩

theorem getEnv_req_ok_some {env : String → Option String} {n : String}
    {v : Option String} (h : getEnv env n false = .ok v) : ∃ s, v = some s := by
  cases hv : env n with
  | none => simp [getEnv, hv] at h
  | some w =>
    by_cases hs : pyStrip w.data = []
    · simp [getEnv, hv, hs] at h
    · simp [getEnv, hv, hs] at h
      exact ⟨_, h.symm⟩

theorem getEnvFirst_ok (env : String → Option String) (n1 n2 : String) :
    ∃ v, getEnvFirst env n1 n2 = .ok v := by
  obtain ⟨v1, h1⟩ := getEnv_opt_ok env n1
  cases v1 with
  | none =>
    obtain ⟨v2, h2⟩ := getEnv_opt_ok env n2
    refine ⟨v2, ?_⟩
    unfold getEnvFirst
    rw [h1, exceptBind_ok]
    exact h2
  | some s =>
    refine ⟨some s, ?_⟩
    unfold getEnvFirst
    rw [h1, exceptBind_ok]
    rfl

theorem collectEnvironment_error_validation {env : String → Option String}
    {e : AppError} (h : collectEnvironment env = .error e) :
    ∃ m, e = .envValidation m := by
  unfold collectEnvironment at h
  cases h1 : getEnv env "EULA" false with
  | error e1 =>
    rw [h1, exceptBind_err] at h
    cases h
    exact getEnv_error h1
  | ok eulaV =>
    rw [h1, exceptBind_ok] at h
    split at h
    · rw [exceptThrow_eq] at h
      cases h
      exact ⟨_, rfl⟩
    · cases h2 : getEnv env "VERSION" false with
      | error e2 =>
        rw [h2, exceptBind_err] at h
        cases h
        exact getEnv_error h2
      | ok versionV =>
        rw [h2, exceptBind_ok] at h
        split at h
        · rw [exceptThrow_eq] at h
          cases h
          exact ⟨_, rfl⟩
        · cases h3 : getEnv env "WORKING_DIR" false with
          | error e3 =>
            rw [h3, exceptBind_err] at h
            cases h
            exact getEnv_error h3
          | ok wdV =>
            rw [h3, exceptBind_ok] at h
            split at h
            · rw [exceptThrow_eq] at h
              cases h
              exact ⟨_, rfl⟩
            · cases h4 : getEnv env "TYPE" false with
              | error e4 =>
                rw [h4, exceptBind_err] at h
                cases h
                exact getEnv_error h4
              | ok stV =>
                rw [h4, exceptBind_ok] at h
                split at h
                · rw [exceptThrow_eq] at h
                  cases h
                  exact ⟨_, rfl⟩
                · split at h
                  · obtain ⟨t2, h6⟩ :=
                      getEnvFirst_ok env "CURSEFORGE_API_TOKEN" "CF_API_TOKEN"
                    rw [h6, exceptBind_ok] at h
                    split at h
                    · rw [exceptThrow_eq] at h
                      cases h
                      exact ⟨_, rfl⟩
                    · split at h
                      · rw [exceptThrow_eq] at h
                        cases h
                        exact ⟨_, rfl⟩
                      · obtain ⟨m2, h7⟩ :=
                          getEnvFirst_ok env "CURSEFORGE_MODPACK_ID" "CF_MODPACK_ID"
                        rw [h7, exceptBind_ok] at h
                        split at h
                        · rw [exceptThrow_eq] at h
                          cases h
                          exact ⟨_, rfl⟩
                        · split at h
                          · rw [exceptThrow_eq] at h
                            cases h
                            exact ⟨_, rfl⟩
                          · exact Except.noConfusion h
                  · exact Except.noConfusion h

theorem collectEnvironment_ok_absolute {env : String → Option String}
    {cfg : EnvironmentConfig} (h : collectEnvironment env = .ok cfg) :
    getEnv env "WORKING_DIR" false = .ok (some cfg.workingDir) ∧
      isAbsolutePath cfg.workingDir = true := by
  unfold collectEnvironment at h
  cases h1 : getEnv env "EULA" false with
  | error e1 =>
    rw [h1, exceptBind_err] at h
    cases h
  | ok eulaV =>
    rw [h1, exceptBind_ok] at h
    split at h
    · rw [exceptThrow_eq] at h
      cases h
    · cases h2 : getEnv env "VERSION" false with
      | error e2 =>
        rw [h2, exceptBind_err] at h
        cases h
      | ok versionV =>
        rw [h2, exceptBind_ok] at h
        split at h
        · rw [exceptThrow_eq] at h
          cases h
        · cases h3 : getEnv env "WORKING_DIR" false with
          | error e3 =>
            rw [h3, exceptBind_err] at h
            cases h
          | ok wdV =>
            obtain ⟨w, rfl⟩ := getEnv_req_ok_some h3
            rw [h3, exceptBind_ok] at h
            split at h
            · rw [exceptThrow_eq] at h
              cases h
            · rename_i hcond
              have habs : isAbsolutePath w = true := by
                by_cases hx : isAbsolutePath w
                · exact hx
                · exact absurd (by simp [hx]) hcond
              cases h4 : getEnv env "TYPE" false with
              | error e4 =>
                rw [h4, exceptBind_err] at h
                cases h
              | ok stV =>
                rw [h4, exceptBind_ok] at h
                split at h
                · rw [exceptThrow_eq] at h
                  cases h
                · split at h
                  · obtain ⟨t2, h6⟩ :=
                      getEnvFirst_ok env "CURSEFORGE_API_TOKEN" "CF_API_TOKEN"
                    rw [h6, exceptBind_ok] at h
                    split at h
                    · rw [exceptThrow_eq] at h
                      cases h
                    · split at h
                      · rw [exceptThrow_eq] at h
                        cases h
                      · obtain ⟨m2, h7⟩ :=
                          getEnvFirst_ok env "CURSEFORGE_MODPACK_ID" "CF_MODPACK_ID"
                        rw [h7, exceptBind_ok] at h
                        split at h
                        · rw [exceptThrow_eq] at h
                          cases h
                        · split at h
                          · rw [exceptThrow_eq] at h
                            cases h
                          · have h8 : Except.ok (α := EnvironmentConfig) _ =
                                Except.ok cfg := h
                            cases h8
                            exact ⟨rfl, habs⟩
                  · have h8 : Except.ok (α := EnvironmentConfig) _ =
                        Except.ok cfg := h
                    cases h8
                    exact ⟨rfl, habs⟩

/-- C9: with `WORKING_DIR` set to a relative path (nonempty after
stripping), configuration collection fails with an
`EnvironmentValidationError` — indeed every failure of
`collectEnvironment` is of that kind, and `collectEnvironment` performs no
network access at all — and it succeeds only when the collected
`WORKING_DIR` is an absolute path. -/
theorem collectEnvironment_spec :
    (∀ (env : String → Option String) e, collectEnvironment env = .error e →
      ∃ m, e = .envValidation m) ∧
    (∀ (env : String → Option String) cfg, collectEnvironment env = .ok cfg →
      isAbsolutePath cfg.workingDir = true) ∧
    (∀ (env : String → Option String) w, env "WORKING_DIR" = some w →
      pyStrip w.data ≠ [] → isAbsolutePath (pyStripS w) = false →
      ∃ m, collectEnvironment env = .error (.envValidation m)) := by
  refine ⟨fun env e h => collectEnvironment_error_validation h,
    fun env cfg h => (collectEnvironment_ok_absolute h).2, ?_⟩
  intro env w hw hne hrel
  cases hr : collectEnvironment env with
  | error e =>
    obtain ⟨m, rfl⟩ := collectEnvironment_error_validation hr
    exact ⟨m, rfl⟩
  | ok cfg =>
    have hgw := (collectEnvironment_ok_absolute hr).1
    have hgw2 : getEnv env "WORKING_DIR" false = .ok (some (pyStripS w)) := by
      simp [getEnv, hw, hne]
    rw [hgw2] at hgw
    have hcw : pyStripS w = cfg.workingDir := by
      simpa using hgw
    rw [hcw] at hrel
    exact absurd (collectEnvironment_ok_absolute hr).2 (by simp [hrel])

/-- C9, witness: the claim theorem applied to a concrete environment with a
relative `WORKING_DIR`, and to a concrete valid environment whose collected
working directory is absolute. -/
theorem collectEnvironment_spec_witness :
    (∃ m, collectEnvironment (fun n =>
        if n = "EULA" then some "true"
        else if n = "VERSION" then some "1.2.3"
        else if n = "WORKING_DIR" then some "relative/path"
        else if n = "TYPE" then some "VANILLA"
        else none) = .error (.envValidation m)) ∧
    isAbsolutePath
      (EnvironmentConfig.mk "1.2.3" "/srv/minecraft" ServerType.VANILLA
        none none).workingDir = true := by
  constructor
  · exact collectEnvironment_spec.2.2 _ "relative/path" (by decide) (by decide)
      (by decide)
  · exact collectEnvironment_spec.2.1 (fun n =>
        if n = "EULA" then some "true"
        else if n = "VERSION" then some "1.2.3"
        else if n = "WORKING_DIR" then some "/srv/minecraft"
        else if n = "TYPE" then some "VANILLA"
        else none) _ (by rfl)

/-! Lemmas for the server.jar scraper (claim C7).  A match of the fixed
pattern inside `cs` is an occurrence of a matching string `u` as a prefix of
some suffix `cs.drop i`; `matchAt` is sound and complete for matches at a
fixed position, and completeness makes the match at a position unique. -/

theorem drop_length_takeWhile (p : Char → Bool) (l : Line) :
    l.drop (l.takeWhile p).length = l.dropWhile p := by
  induction l with
  | nil => rfl
  | cons a l ih =>
    rw [List.takeWhile_cons, List.dropWhile_cons]
    by_cases hp : p a
    · simp only [hp, if_true]
      simpa using ih
    · simp [hp]

theorem matchAt_sound {cs u : Line} (h : matchAt cs = some u) :
    isUrlMatch u ∧ u <+: cs := by
  unfold matchAt at h
  split at h
  · rename_i hpre
    split at h
    · exact Option.noConfusion h
    · rename_i hne
      split at h
      · rename_i hsuf
        have hu := Option.some.inj h
        subst hu
        constructor
        · refine ⟨(cs.drop urlPrefix.length).takeWhile isHexDigit, ?_, ?_, rfl⟩
          · intro h0
            exact hne (by rw [h0]; rfl)
          · intro c hc
            exact mem_takeWhile_sat hc
        · have hpre2 : urlPrefix <+: cs := List.isPrefixOf_iff_prefix.mp hpre
          obtain ⟨t, ht⟩ := hpre2
          have hdrop : cs.drop urlPrefix.length = t := by
            rw [← ht]
            exact List.drop_left _ _
          have hsuf2 : urlSuffix <+: (cs.drop urlPrefix.length).drop
              ((cs.drop urlPrefix.length).takeWhile isHexDigit).length :=
            List.isPrefixOf_iff_prefix.mp hsuf
          rw [drop_length_takeWhile] at hsuf2
          obtain ⟨t2, ht2⟩ := hsuf2
          refine ⟨t2, ?_⟩
          rw [hdrop, ← ht]
          conv_rhs =>
            rw [← List.takeWhile_append_dropWhile (p := isHexDigit) (l := t)]
          rw [hdrop] at ht2
          rw [← ht2]
          simp [List.append_assoc]
      · exact Option.noConfusion h
  · exact Option.noConfusion h

theorem matchAt_complete {cs u : Line} (hm : isUrlMatch u) (hp : u <+: cs) :
    matchAt cs = some u := by
  obtain ⟨hx, hne, hhex, rfl⟩ := hm
  obtain ⟨t, ht⟩ := hp
  have hrest : cs.drop urlPrefix.length = hx ++ (urlSuffix ++ t) := by
    rw [← ht]
    simp only [List.append_assoc]
    exact List.drop_left _ _
  have hPpre : urlPrefix.isPrefixOf cs = true := by
    rw [List.isPrefixOf_iff_prefix]
    exact ⟨hx ++ urlSuffix ++ t, by rw [← ht]; simp [List.append_assoc]⟩
  have hsufnil : (urlSuffix ++ t).takeWhile isHexDigit = [] := by
    have hslash : urlSuffix ++ t = '/' :: ("server.jar".data ++ t) := rfl
    rw [hslash, List.takeWhile_cons]
    simp [show isHexDigit '/' = false from rfl]
  have htw : (hx ++ (urlSuffix ++ t)).takeWhile isHexDigit = hx := by
    rw [takeWhile_append_all hhex, hsufnil, List.append_nil]
  have hie : ¬((hx ++ (urlSuffix ++ t)).takeWhile isHexDigit).isEmpty = true := by
    rw [htw]
    cases hx with
    | nil => exact absurd rfl hne
    | cons a l => simp
  unfold matchAt
  rw [if_pos hPpre, hrest, htw]
  rw [if_neg (by rw [htw] at hie; exact hie)]
  rw [List.drop_left]
  rw [if_pos (List.isPrefixOf_iff_prefix.mpr (List.prefix_append _ _))]

theorem extract_scan (cs : Line) :
    (extractServerJarUrl cs = none ↔
      ∀ i u, isUrlMatch u → ¬u <+: cs.drop i) ∧
    (∀ u, extractServerJarUrl cs = some u →
      isUrlMatch u ∧ ∃ i, u <+: cs.drop i ∧
        (∀ j, j < i → ∀ v, isUrlMatch v → ¬v <+: cs.drop j) ∧
        (∀ v, isUrlMatch v → v <+: cs.drop i → v = u)) := by
  induction cs with
  | nil =>
    constructor
    · constructor
      · intro _ i u hu hp
        rw [List.drop_nil] at hp
        obtain ⟨hx, hxe, _, rfl⟩ := hu
        obtain ⟨t, ht⟩ := hp
        rcases List.append_eq_nil.mp ht with ⟨h1, _⟩
        rcases List.append_eq_nil.mp h1 with ⟨h2, _⟩
        rcases List.append_eq_nil.mp h2 with ⟨_, h3⟩
        exact hxe h3
      · intro _
        rfl
    · intro u hu
      exact Option.noConfusion hu
  | cons c rest ih =>
    cases hma : matchAt (c :: rest) with
    | some u0 =>
      have hext : extractServerJarUrl (c :: rest) = some u0 := by
        unfold extractServerJarUrl
        rw [hma]
      obtain ⟨hum, hup⟩ := matchAt_sound hma
      constructor
      · constructor
        · intro h0
          rw [hext] at h0
          exact Option.noConfusion h0
        · intro hall
          exact absurd hup (by simpa using hall 0 u0 hum)
      · intro u hu
        rw [hext] at hu
        have hu2 := Option.some.inj hu
        subst hu2
        refine ⟨hum, 0, by simpa using hup, ?_, ?_⟩
        · intro j hj
          exact absurd hj (Nat.not_lt_zero j)
        · intro v hv hp
          rw [List.drop_zero] at hp
          have hcv := matchAt_complete hv hp
          rw [hma] at hcv
          exact (Option.some.inj hcv).symm
    | none =>
      have hext : extractServerJarUrl (c :: rest) = extractServerJarUrl rest := by
        have hstep : extractServerJarUrl (c :: rest) =
            match matchAt (c :: rest) with
            | some u => some u
            | none => extractServerJarUrl rest := rfl
        rw [hstep, hma]
      have hno0 : ∀ v, isUrlMatch v → ¬v <+: c :: rest := by
        intro v hv hp
        have hcv := matchAt_complete hv hp
        rw [hma] at hcv
        exact Option.noConfusion hcv
      constructor
      · rw [hext]
        constructor
        · intro h0 i u hu hp
          cases i with
          | zero =>
            rw [List.drop_zero] at hp
            exact hno0 u hu hp
          | succ i2 =>
            rw [List.drop_succ_cons] at hp
            exact (ih.1.mp h0) i2 u hu hp
        · intro hall
          refine ih.1.mpr ?_
          intro i u hu hp
          have hi := hall (i + 1) u hu
          rw [List.drop_succ_cons] at hi
          exact hi hp
      · intro u hu
        rw [hext] at hu
        obtain ⟨hum, i, hp, hmin, huq⟩ := ih.2 u hu
        refine ⟨hum, i + 1, ?_, ?_, ?_⟩
        · rw [List.drop_succ_cons]
          exact hp
        · intro j hj v hv hpv
          cases j with
          | zero =>
            rw [List.drop_zero] at hpv
            exact hno0 v hv hpv
          | succ j2 =>
            rw [List.drop_succ_cons] at hpv
            exact hmin j2 (by omega) v hv hpv
        · intro v hv hpv
          rw [List.drop_succ_cons] at hpv
          exact huq v hv hpv

/-- C7: for every page body, the scraper returns exactly the first substring
matching the fixed pattern
`https://piston-data.mojang.com/v1/objects/<hex>/server.jar` when one
exists — the returned string matches the pattern, occurs at a position
before which no position carries any match, and is the unique match at its
own position, so the greedy hex run is deterministic — and it returns
`None` exactly when no position of the body carries a match; in that case
`fetchServerJarUrl` in the vanilla module fails with the distinct
not-found `ExtractionError`. -/
theorem extractServerJarUrl_leftmost :
    (∀ cs : Line, extractServerJarUrl cs = none ↔
      ∀ i u, isUrlMatch u → ¬u <+: cs.drop i) ∧
    (∀ cs u : Line, extractServerJarUrl cs = some u →
      isUrlMatch u ∧ ∃ i, u <+: cs.drop i ∧
        (∀ j, j < i → ∀ v, isUrlMatch v → ¬v <+: cs.drop j) ∧
        (∀ v, isUrlMatch v → v <+: cs.drop i → v = u)) ∧
    (∀ (net : String → HttpOutcome) (version : String) (s : Nat)
        (body : String),
      net (mcVersionsUrl ++ version) = HttpOutcome.resp s body →
      extractServerJarUrl body.data = none →
      fetchServerJarUrlVanilla net version =
        Except.error (AppError.extraction
          "Unable to locate server.jar URL in download page")) := by
  refine ⟨fun cs => (extract_scan cs).1, fun cs u => (extract_scan cs).2 u, ?_⟩
  intro net version s body hnet hnone
  simp [fetchServerJarUrlVanilla, hnet, hnone]

/-- C7, witness: the claim theorem applied to the spec's example page body,
with the scan evaluated by reflexivity: the scraper extracts exactly the
embedded URL, which is a leftmost and unique match. -/
theorem extractServerJarUrl_leftmost_witness :
    isUrlMatch
      "https://piston-data.mojang.com/v1/objects/abcdef0123456789/server.jar".data ∧
    ∃ i,
      "https://piston-data.mojang.com/v1/objects/abcdef0123456789/server.jar".data <+:
        ("XX https://piston-data.mojang.com/v1/objects/abcdef0123456789/server.jar YY".data).drop i ∧
      (∀ j, j < i → ∀ v, isUrlMatch v →
        ¬v <+: ("XX https://piston-data.mojang.com/v1/objects/abcdef0123456789/server.jar YY".data).drop j) ∧
      (∀ v, isUrlMatch v →
        v <+: ("XX https://piston-data.mojang.com/v1/objects/abcdef0123456789/server.jar YY".data).drop i →
        v = "https://piston-data.mojang.com/v1/objects/abcdef0123456789/server.jar".data) :=
  extractServerJarUrl_leftmost.2.1
    "XX https://piston-data.mojang.com/v1/objects/abcdef0123456789/server.jar YY".data
    "https://piston-data.mojang.com/v1/objects/abcdef0123456789/server.jar".data
    (by rfl)

end MinecraftBootstrap
